import Mathlib

/-!
Verification development for the photo-album-organizer persistence and
ingestion engine: a shallow embedding of the SQLite metadata store (albums,
photos, album_order tables accessed through sql.js), the IndexedDB blob
store (`storage.js`), the content hasher (`utils/hash.js`, whose
`crypto.subtle.digest('SHA-256', ...)` call is embedded as SHA-256
itself), and the services built on top of them (`albumService.js`,
`photoService.js`, `uploadService.js`), together with the form-level
validator (`formValidator.js`).

Stores are modelled as lists of rows inside one explicit `DBState`; every
operation is a pure function threading that state, returning the state it
leaves behind together with an `Except String` result mirroring the
JavaScript promise resolution or rejection (the `String` is the thrown
error's message).  Timestamps are a `Nat` clock carried in the state.
-/

namespace PhotoAlbum

/-- A browser `File` as the engine sees it: name, MIME type, size and byte
content, plus the pixel dimensions and decodability that the browser's
image decoder would report, and the thumbnail bytes the canvas-based
`generateThumbnail` would derive.  Whether `file.arrayBuffer()` resolves
(the read can reject, e.g. when the underlying handle has gone stale) is
modelled by the `readable` flag; the decoder and canvas are modelled
abstractly by the `decodable`, `width`, `height` and `thumb` fields. -/
structure JsFile where
  name : String
  ftype : String
  size : Nat
  bytes : List Nat
  readable : Bool
  width : Nat
  height : Nat
  decodable : Bool
  thumb : List Nat
  deriving DecidableEq, Repr, Inhabited

/-- Row of the `albums` table (see `db/schema.sql` and the `Album` class):
id, name, date (a `YYYY-MM-DD` string, compared as TEXT like SQLite does),
nullable `custom_order`, and the two timestamps. -/
structure Album where
  id : Nat
  name : String
  date : String
  custom_order : Option Nat
  created_at : Nat
  updated_at : Nat
  deriving DecidableEq, Repr, Inhabited

/-- Row of the `photos` table (see `db/schema.sql` and the `Photo` class);
`file_hash` is the TEXT column holding the 64-character hex digest that
`calculateFileHash` produces. -/
structure Photo where
  id : Nat
  album_id : Nat
  filename : String
  file_hash : String
  upload_timestamp : Nat
  file_size : Nat
  format : String
  width : Nat
  height : Nat
  deriving DecidableEq, Repr, Inhabited

/-- Row of the `album_order` table of `db/schema.sql`. -/
structure OrderRow where
  id : Nat
  album_id : Nat
  position : Nat
  updated_at : Nat
  deriving DecidableEq, Repr, Inhabited

/-- Record of the IndexedDB `photos` object store (`storage.js`,
`storePhoto`): keyed by photo id, holding the album id, the original and
thumbnail payloads, the content hash and a timestamp. -/
structure StoredBlob where
  id : Nat
  albumId : Nat
  photo : List Nat
  thumbnail : List Nat
  fileHash : String
  timestamp : Nat
  deriving DecidableEq, Repr, Inhabited

/-- The combined persistent state: the three SQLite tables, the IndexedDB
object store, the AUTOINCREMENT counters, and a clock used to stamp
timestamps. -/
structure DBState where
  albums : List Album
  photos : List Photo
  albumOrder : List OrderRow
  blobs : List StoredBlob
  nextAlbumId : Nat
  nextPhotoId : Nat
  now : Nat
  deriving DecidableEq, Repr, Inhabited

/-- The state of a freshly initialised database: empty tables, rowids
starting at 1. -/
def emptyDB : DBState :=
  { albums := [], photos := [], albumOrder := [], blobs := [],
    nextAlbumId := 1, nextPhotoId := 1, now := 0 }

/-- Strip leading and trailing whitespace from a character list. -/
def trimChars (l : List Char) : List Char :=
  ((l.dropWhile Char.isWhitespace).reverse.dropWhile Char.isWhitespace).reverse

/-- Model of the JavaScript `String.prototype.trim`. -/
def jsTrim (s : String) : String := String.mk (trimChars s.data)

/-- Does a character list match the date pattern of the anchored regex
used by `albumService.create` and `formValidator.isValidDate`, namely
four digits, a dash, two digits, a dash, two digits. -/
def dateFormatChars : List Char → Bool
  | [y1, y2, y3, y4, h1, m1, m2, h2, d1, d2] =>
      y1.isDigit && y2.isDigit && y3.isDigit && y4.isDigit && h1 == '-' &&
      m1.isDigit && m2.isDigit && h2 == '-' && d1.isDigit && d2.isDigit
  | _ => false

/-- The test of the regex `^\d{4}-\d{2}-\d{2}$` on a string. -/
def matchesDateRegex (s : String) : Bool := dateFormatChars s.data

/-- Numeric value of a digit character. -/
def digitVal (c : Char) : Nat := c.toNat - '0'.toNat

/-- Parse a `YYYY-MM-DD` character list into a (year, month, day)
triple; garbage input parses to (0, 0, 0) but is only used behind
`matchesDateRegex`. -/
def parseDate : List Char → Nat × Nat × Nat
  | [y1, y2, y3, y4, _, m1, m2, _, d1, d2] =>
      (digitVal y1 * 1000 + digitVal y2 * 100 + digitVal y3 * 10 + digitVal y4,
       digitVal m1 * 10 + digitVal m2,
       digitVal d1 * 10 + digitVal d2)
  | _ => (0, 0, 0)

/-- Gregorian leap-year test, as used by the JavaScript `Date` parser to
decide which `YYYY-MM-DD` strings denote real dates. -/
def isLeapYear (y : Nat) : Bool := (y % 4 == 0 && y % 100 != 0) || y % 400 == 0

/-- Number of days in a month of a given year. -/
def daysInMonth (y m : Nat) : Nat :=
  if m == 2 then (if isLeapYear y then 29 else 28)
  else if m == 4 || m == 6 || m == 9 || m == 11 then 30
  else 31

/-- Model of `new Date(dateString)` producing a non-NaN time for a string
that already matches the `YYYY-MM-DD` regex: the ISO parser accepts it
exactly when month and day are in range. -/
def jsDateValid (s : String) : Bool :=
  matchesDateRegex s &&
    (let p := parseDate s.data
     1 ≤ p.2.1 && p.2.1 ≤ 12 && 1 ≤ p.2.2 && p.2.2 ≤ daysInMonth p.1 p.2.1)

/-- Strict lexicographic order on (year, month, day) triples, the order in
which the JavaScript `Date` values of well-formed `YYYY-MM-DD` strings
compare. -/
def tripleLt (a b : Nat × Nat × Nat) : Bool :=
  a.1 < b.1 ||
    (a.1 == b.1 && (a.2.1 < b.2.1 || (a.2.1 == b.2.1 && a.2.2 < b.2.2)))

/-- Model of `formValidator.isFutureDate`: is the parsed date strictly
after today (today's time-of-day having been zeroed)?  `today` is passed
explicitly as a (year, month, day) triple. -/
def isFutureDate (date : String) (today : Nat × Nat × Nat) : Bool :=
  tripleLt today (parseDate date.data)

/-- Result of `formValidator.validateAlbumForm`: the per-field errors and
the overall `valid` flag (`Object.keys(errors).length === 0`). -/
structure FormValidation where
  nameError : Option String
  dateError : Option String
  valid : Bool
  deriving DecidableEq, Repr

/-- Model of `formValidator.validateAlbumForm` over a form's name and date
fields, with the current day passed explicitly.  Mirrors the branch
structure of the source: name required, then the (unreachable) length < 1
branch, then the 100-character cap; date required, then format validity,
then the future-date rejection. -/
def validateAlbumForm (name date : String) (today : Nat × Nat × Nat) :
    FormValidation :=
  let nameError :=
    if (jsTrim name).length == 0 then some "Album name is required"
    else if (jsTrim name).length < 1 then some "Album name must not be empty"
    else if 100 < (jsTrim name).length then
      some "Album name must be 100 characters or less"
    else none
  let dateError :=
    if (jsTrim date).length == 0 then some "Album date is required"
    else if !(jsDateValid date) then
      some "Invalid date format (use YYYY-MM-DD)"
    else if isFutureDate date today then
      some "Album date cannot be in the future"
    else none
  { nameError := nameError, dateError := dateError,
    valid := nameError == none && dateError == none }

namespace Album

/-- The `MAX(custom_order)` aggregate over the albums table; `none` models
SQL NULL (empty table or all-NULL column). -/
def maxCustomOrder (albums : List Album) : Option Nat :=
  albums.foldl
    (fun acc a =>
      match acc, a.custom_order with
      | none, o => o
      | some x, none => some x
      | some x, some y => some (max x y))
    none

/-- Model of `Album.create`: stamp both timestamps, assign
`custom_order := (MAX(custom_order) ?? -1) + 1`, INSERT the row and
return it with the fresh AUTOINCREMENT id. -/
def create (s : DBState) (name date : String) : DBState × Except String Album :=
  let created_at := s.now
  let corder :=
    match maxCustomOrder s.albums with
    | none => 0
    | some m => m + 1
  let row : Album :=
    { id := s.nextAlbumId, name := name, date := date,
      custom_order := some corder, created_at := created_at,
      updated_at := created_at }
  ({ s with albums := s.albums ++ [row], nextAlbumId := s.nextAlbumId + 1 },
   .ok row)

/-- Model of `Album.findById`: `SELECT * FROM albums WHERE id = ?`. -/
def findById (s : DBState) (id : Nat) : Option Album :=
  s.albums.find? (fun a => a.id == id)

end Album

namespace AlbumService

/-- Model of `albumService.create`: name required and non-empty after
trim, date matching the `YYYY-MM-DD` regex and parsing to a real date,
the 100-album cap, then `Album.create` on the trimmed name.  Note the
source checks neither a maximum name length nor whether the date is in
the future. -/
def create (s : DBState) (name date : String) : DBState × Except String Album :=
  if (jsTrim name).length == 0 then
    (s, .error "Album name is required and must be a non-empty string")
  else if !(matchesDateRegex date) then
    (s, .error "Album date must be in YYYY-MM-DD format")
  else if !(jsDateValid date) then
    (s, .error "Invalid date provided")
  else if 100 ≤ s.albums.length then
    (s, .error "Maximum album limit (100) reached")
  else
    Album.create s (jsTrim name) date

end AlbumService

namespace Sha256

/-!
Embedding of the SHA-256 primitive (FIPS 180-4) that
`crypto.subtle.digest('SHA-256', arrayBuffer)` computes inside
`utils/hash.js`.  Bytes are `Nat`s below 256 and 32-bit words are `Nat`s
reduced modulo `2^32` at every operation that could overflow.
-/

/-- `2^32`, the modulus of the 32-bit word arithmetic of SHA-256. -/
def wordMod : Nat := 4294967296

/-- Right rotation of a 32-bit word by `n` bits. -/
def rotr (n x : Nat) : Nat := ((x >>> n) ||| (x <<< (32 - n))) % wordMod

/-- The 64 SHA-256 round constants (FIPS 180-4, 4.2.2; the fractional
parts of the cube roots of the first 64 primes, conventionally listed in
hex — 0x428a2f98, 0x71374491, ... — and written here in decimal). -/
def roundK : List Nat :=
  [1116352408, 1899447441, 3049323471, 3921009573,
   961987163, 1508970993, 2453635748, 2870763221,
   3624381080, 310598401, 607225278, 1426881987,
   1925078388, 2162078206, 2614888103, 3248222580,
   3835390401, 4022224774, 264347078, 604807628,
   770255983, 1249150122, 1555081692, 1996064986,
   2554220882, 2821834349, 2952996808, 3210313671,
   3336571891, 3584528711, 113926993, 338241895,
   666307205, 773529912, 1294757372, 1396182291,
   1695183700, 1986661051, 2177026350, 2456956037,
   2730485921, 2820302411, 3259730800, 3345764771,
   3516065817, 3600352804, 4094571909, 275423344,
   430227734, 506948616, 659060556, 883997877,
   958139571, 1322822218, 1537002063, 1747873779,
   1955562222, 2024104815, 2227730452, 2361852424,
   2428436474, 2756734187, 3204031479, 3329325298]

/-- The initial hash value (FIPS 180-4, 5.3.3; conventionally listed in
hex — 0x6a09e667, ..., 0x5be0cd19 — and written here in decimal). -/
def initH : List Nat :=
  [1779033703, 3144134277, 1013904242, 2773480762,
   1359893119, 2600822924, 528734635, 1541459225]

/-- Pad a byte message to a multiple of 64 bytes: append `0x80`, then
zeros up to 56 mod 64, then the bit length as a 64-bit big-endian
integer (FIPS 180-4, 5.1.1). -/
def padMessage (msg : List Nat) : List Nat :=
  msg ++ [128] ++ List.replicate ((119 - msg.length % 64) % 64) 0 ++
    (List.range 8).map (fun i => ((msg.length * 8) >>> (8 * (7 - i))) % 256)

/-- The `i`-th big-endian 32-bit word of a 64-byte block. -/
def wordAt (block : List Nat) (i : Nat) : Nat :=
  block.getD (4 * i) 0 * 16777216 + block.getD (4 * i + 1) 0 * 65536 +
    block.getD (4 * i + 2) 0 * 256 + block.getD (4 * i + 3) 0

/-- The 64-entry message schedule of one block (FIPS 180-4, 6.2.2 step 1). -/
def schedule (block : List Nat) : List Nat :=
  (List.range 48).foldl
    (fun w _ =>
      let n := w.length
      let x15 := w.getD (n - 15) 0
      let x2 := w.getD (n - 2) 0
      let s0 := (rotr 7 x15) ^^^ (rotr 18 x15) ^^^ (x15 >>> 3)
      let s1 := (rotr 17 x2) ^^^ (rotr 19 x2) ^^^ (x2 >>> 10)
      w ++ [(w.getD (n - 16) 0 + s0 + w.getD (n - 7) 0 + s1) % wordMod])
    ((List.range 16).map (wordAt block))

/-- The compression function: fold the 64 rounds of FIPS 180-4, 6.2.2
steps 2-3 over the working variables `[a, b, c, d, e, f, g, h]`, then add
the result to the incoming hash value (step 4). -/
def compress (hs block : List Nat) : List Nat :=
  let w := schedule block
  let fin := (List.range 64).foldl
    (fun st i =>
      let a := st.getD 0 0
      let b := st.getD 1 0
      let c := st.getD 2 0
      let d := st.getD 3 0
      let e := st.getD 4 0
      let f := st.getD 5 0
      let g := st.getD 6 0
      let h := st.getD 7 0
      let s1 := (rotr 6 e) ^^^ (rotr 11 e) ^^^ (rotr 25 e)
      let ch := (e &&& f) ^^^ ((e ^^^ 4294967295) &&& g)
      let t1 := (h + s1 + ch + roundK.getD i 0 + w.getD i 0) % wordMod
      let s0 := (rotr 2 a) ^^^ (rotr 13 a) ^^^ (rotr 22 a)
      let maj := (a &&& b) ^^^ (a &&& c) ^^^ (b &&& c)
      let t2 := (s0 + maj) % wordMod
      [(t1 + t2) % wordMod, a, b, c, (d + t1) % wordMod, e, f, g])
    hs
  (List.range 8).map (fun i => (hs.getD i 0 + fin.getD i 0) % wordMod)

/-- SHA-256 of a byte message, as the eight 32-bit words of the final
hash value: pad, then fold the compression function over the 64-byte
blocks. -/
def sha256Words (msg : List Nat) : List Nat :=
  let padded := padMessage msg
  (List.range (padded.length / 64)).foldl
    (fun hs b => compress hs ((padded.drop (64 * b)).take 64))
    initH

/-- A lower-case hex digit, as JavaScript's `Number.prototype.toString(16)`
renders one. -/
def hexDigit (n : Nat) : Char :=
  if n < 10 then Char.ofNat (48 + n) else Char.ofNat (87 + n)

/-- One digest byte as the two lower-case hex characters of
`b.toString(16).padStart(2, '0')`. -/
def byteHex (b : Nat) : List Char := [hexDigit (b / 16), hexDigit (b % 16)]

/-- The four big-endian bytes of a 32-bit word, in the order
`new Uint8Array(hashBuffer)` exposes the digest. -/
def wordBytes (w : Nat) : List Nat :=
  [(w >>> 24) % 256, (w >>> 16) % 256, (w >>> 8) % 256, w % 256]

/-- The digest of a byte message as the 64-character lower-case hex
string that `hashArray.map(b => b.toString(16).padStart(2, '0')).join('')`
produces. -/
def sha256Hex (msg : List Nat) : String :=
  String.mk (((((sha256Words msg).map wordBytes).flatten).map byteHex).flatten)

end Sha256

/-- Model of `calculateFileHash` in `src/js/utils/hash.js`: read the
file's content with `file.arrayBuffer()` — a read that can reject, which
the file's `readable` flag models, the rejecting browser read error being
modelled as the string "NotReadableError" — then digest the bytes with
`crypto.subtle.digest('SHA-256', arrayBuffer)` and render the 32 digest
bytes as lower-case hex via `toString(16).padStart(2, '0')` and
`join('')`.  A read failure is logged and rethrown unchanged. -/
def calculateFileHash (f : JsFile) : Except String String :=
  if f.readable then .ok (Sha256.sha256Hex f.bytes)
  else .error "NotReadableError"

/-- Model of `getImageDimensions` in `photoService.js`: loading the file
into an `Image` yields its pixel dimensions, or rejects with
"Failed to load image" when the payload cannot be decoded. -/
def getImageDimensions (f : JsFile) : Except String (Nat × Nat) :=
  if f.decodable then .ok (f.width, f.height) else .error "Failed to load image"

/-- Model of `generateThumbnail` in `utils/thumbnail.js`: the canvas-based
centre-crop-and-scale derivation, abstracted to the file's `thumb` payload,
rejecting with "Failed to load image" when the payload cannot be decoded. -/
def generateThumbnail (f : JsFile) : Except String (List Nat) :=
  if f.decodable then .ok f.thumb else .error "Failed to load image"

namespace Storage

/-- Model of `storage.js` `storePhoto`: a `put` into the IndexedDB
`photos` object store keyed by `id`.  `initStorage` created the
`fileHash` index with `unique: true`, so the put is rejected with a
`ConstraintError` whenever a record under a *different* key carries the
same `fileHash`; otherwise any record under the same key is replaced. -/
def storePhoto (s : DBState) (photoId albumId : Nat)
    (photoBlob thumbnailBlob : List Nat) (fileHash : String) :
    DBState × Except String Unit :=
  if s.blobs.any (fun b => b.fileHash == fileHash && b.id != photoId) then
    (s, .error "ConstraintError")
  else
    ({ s with
        blobs := s.blobs.filter (fun b => b.id != photoId) ++
          [{ id := photoId, albumId := albumId, photo := photoBlob,
             thumbnail := thumbnailBlob, fileHash := fileHash,
             timestamp := s.now }] },
     .ok ())

/-- Model of `storage.js` `getPhotosByAlbum`: lookup through the
(non-unique) `albumId` index. -/
def getPhotosByAlbum (s : DBState) (albumId : Nat) : List StoredBlob :=
  s.blobs.filter (fun b => b.albumId == albumId)

/-- Model of `storage.js` `deletePhoto`: delete by key (idempotent). -/
def deletePhoto (s : DBState) (photoId : Nat) : DBState :=
  { s with blobs := s.blobs.filter (fun b => b.id != photoId) }

/-- Model of `storage.js` `deletePhotosByAlbum`: fetch the album's records
then delete each one by its key. -/
def deletePhotosByAlbum (s : DBState) (albumId : Nat) : DBState :=
  (getPhotosByAlbum s albumId).foldl (fun st p => deletePhoto st p.id) s

end Storage

namespace Photo

/-- Model of `Photo.countByAlbum`: `SELECT COUNT(*) ... WHERE album_id = ?`. -/
def countByAlbum (s : DBState) (albumId : Nat) : Nat :=
  (s.photos.filter (fun p => p.album_id == albumId)).length

/-- Model of `Photo.findByAlbumAndHash`:
`SELECT * FROM photos WHERE album_id = ? AND file_hash = ? LIMIT 1`. -/
def findByAlbumAndHash (s : DBState) (albumId : Nat) (fileHash : String) :
    Option Photo :=
  s.photos.find? (fun p => p.album_id == albumId && p.file_hash == fileHash)

/-- Model of `Photo.create`: INSERT the metadata row into SQLite, read the
fresh `last_insert_rowid()`, then store the blob pair in IndexedDB under
that id.  When the blob store rejects, the exception propagates but the
already-committed metadata row remains (there is no cross-store
transaction). -/
def create (s : DBState) (album_id : Nat) (filename : String)
    (file_hash : String) (file_size : Nat) (format : String)
    (width height : Nat) (photoBlob thumbnailBlob : List Nat) :
    DBState × Except String Photo :=
  let row : Photo :=
    { id := s.nextPhotoId, album_id := album_id, filename := filename,
      file_hash := file_hash, upload_timestamp := s.now,
      file_size := file_size, format := format, width := width,
      height := height }
  let s1 : DBState :=
    { s with photos := s.photos ++ [row], nextPhotoId := s.nextPhotoId + 1 }
  match Storage.storePhoto s1 row.id album_id photoBlob thumbnailBlob file_hash with
  | (s2, .error e) => (s2, .error e)
  | (s2, .ok _) => (s2, .ok row)

end Photo

/-- The steps of the ingestion pipeline of `photoService.add`, in the
order the source performs them. -/
inductive Step where
  | validateFormat
  | capacityCheck
  | hashCompute
  | dupLookup
  | dimExtract
  | thumbDerive
  | metaWrite
  | blobWrite
  deriving DecidableEq, Repr

/-- The full pipeline trace of a run of `photoService.add` that reaches
the dual-store write: format validation, capacity check, fingerprint,
duplicate lookup, dimension extraction, thumbnail derivation, metadata
write, then blob write. -/
def fullTrace : List Step :=
  [.validateFormat, .capacityCheck, .hashCompute, .dupLookup,
   .dimExtract, .thumbDerive, .metaWrite, .blobWrite]

/-- Outcome of a run of `photoService.add`: the state left behind, the
promise resolution or rejection, and the trace of pipeline steps that
were performed (a failing step is included as its last element). -/
structure AddOut where
  state : DBState
  result : Except String Photo
  trace : List Step
  deriving Repr

namespace PhotoService

/-- The supported format list of `photoService.add`. -/
def validFormats : List String :=
  ["image/jpeg", "image/png", "image/webp", "image/heic"]

/-- The characters of the second `'/'`-separated field of a character
list: what `split('/')[1]` denotes on a MIME type such as `image/jpeg`. -/
def afterSlash (l : List Char) : List Char :=
  ((l.dropWhile (fun c => c != '/')).drop 1).takeWhile (fun c => c != '/')

/-- The format column value: `file.type.split('/')[1]` (every format the
pipeline lets through contains a slash). -/
def formatOf (f : JsFile) : String := String.mk (afterSlash f.ftype.data)

/-- Model of `photoService.add`, instrumented with the trace of pipeline
steps.  Mirrors the source line by line: format validation, the 500-photo
capacity check, `await calculateFileHash(file)` (whose rejection — a
failed `file.arrayBuffer()` read — propagates and aborts the pipeline
before the duplicate lookup), `Photo.findByAlbumAndHash`,
`getImageDimensions`, `generateThumbnail`, then `Photo.create` (metadata
INSERT followed by the IndexedDB blob write). -/
def addT (s : DBState) (albumId : Nat) (f : JsFile) : AddOut :=
  if !(validFormats.contains f.ftype) then
    { state := s,
      result := .error ("Unsupported file format: " ++ f.ftype ++
        ". Supported formats: JPEG, PNG, WebP, HEIC"),
      trace := [.validateFormat] }
  else if 500 ≤ Photo.countByAlbum s albumId then
    { state := s,
      result := .error "Album has reached maximum photo limit (500)",
      trace := [.validateFormat, .capacityCheck] }
  else
    match calculateFileHash f with
    | .error e =>
      { state := s, result := .error e,
        trace := [.validateFormat, .capacityCheck, .hashCompute] }
    | .ok fileHash =>
      match Photo.findByAlbumAndHash s albumId fileHash with
      | some _ =>
        { state := s,
          result := .error ("Duplicate photo detected: " ++ f.name ++
            " already exists in this album"),
          trace := [.validateFormat, .capacityCheck, .hashCompute, .dupLookup] }
      | none =>
        match getImageDimensions f with
        | .error e =>
          { state := s, result := .error e,
            trace := [.validateFormat, .capacityCheck, .hashCompute,
              .dupLookup, .dimExtract] }
        | .ok dims =>
          match generateThumbnail f with
          | .error e =>
            { state := s, result := .error e,
              trace := [.validateFormat, .capacityCheck, .hashCompute,
                .dupLookup, .dimExtract, .thumbDerive] }
          | .ok thumbnailBlob =>
            match Photo.create s albumId f.name fileHash f.size
                (formatOf f) dims.1 dims.2 f.bytes thumbnailBlob with
            | (s2, .error e) => { state := s2, result := .error e, trace := fullTrace }
            | (s2, .ok p) => { state := s2, result := .ok p, trace := fullTrace }

/-- Model of `photoService.add` proper: the state and the promise
outcome of the instrumented pipeline. -/
def add (s : DBState) (albumId : Nat) (f : JsFile) :
    DBState × Except String Photo :=
  ((addT s albumId f).state, (addT s albumId f).result)

end PhotoService

namespace Album

/-- Sort key for `ORDER BY custom_order ASC`: SQLite sorts NULLs first in
ascending order, so NULL maps below every assigned position. -/
def orderKey (a : Album) : Nat :=
  match a.custom_order with
  | none => 0
  | some x => x + 1

/-- The row order `ORDER BY custom_order ASC` establishes. -/
def customOrderLe (a b : Album) : Prop := orderKey a ≤ orderKey b

instance : DecidableRel customOrderLe := fun a b =>
  inferInstanceAs (Decidable (orderKey a ≤ orderKey b))

/-- Model of `Album.findAll`:
`SELECT * FROM albums ORDER BY custom_order ASC`. -/
def findAll (s : DBState) : List Album :=
  (s.albums).insertionSort customOrderLe

/-- Strict byte-wise lexicographic comparison of character lists, the
collation SQLite applies to TEXT columns (dates here are ASCII, where
code-point order and byte order agree). -/
def ltChars : List Char → List Char → Bool
  | [], [] => false
  | [], _ :: _ => true
  | _ :: _, [] => false
  | c :: cs, d :: ds =>
    if c.toNat < d.toNat then true
    else if d.toNat < c.toNat then false
    else ltChars cs ds

/-- Strict SQLite TEXT comparison of two strings. -/
def strLt (a b : String) : Bool := ltChars a.data b.data

/-- The row order `ORDER BY date DESC, created_at DESC` establishes:
later dates first, and for equal dates the later `created_at` first.
Dates are TEXT, compared byte-wise by SQLite. -/
def dateCreatedDescLe (a b : Album) : Prop :=
  strLt b.date a.date = true ∨ (b.date = a.date ∧ b.created_at ≤ a.created_at)

instance : DecidableRel dateCreatedDescLe := fun a b =>
  inferInstanceAs (Decidable (_ ∨ _))

/-- Model of `Album.findAllByDate` with its default `'DESC'` argument
(the call the album service's date-sorted listing makes):
`SELECT * FROM albums ORDER BY date DESC, created_at DESC`. -/
def findAllByDate (s : DBState) : List Album :=
  (s.albums).insertionSort dateCreatedDescLe

/-- The ordering the spec's words claim for date mode: date descending
with *name ascending* as the tie-break for equal dates.  This definition
follows the spec's words, for comparison against `findAllByDate` which is
translated from the source. -/
def dateNameSpecLe (a b : Album) : Prop :=
  strLt b.date a.date = true ∨
    (b.date = a.date ∧ (strLt a.name b.name = true ∨ a.name = b.name))

instance : DecidableRel dateNameSpecLe := fun a b =>
  inferInstanceAs (Decidable (_ ∨ (_ ∧ (_ ∨ _))))

/-- Date-mode listing as the spec's words describe it (spec-side of the
comparison for the tie-break question). -/
def findAllByDateSpec (s : DBState) : List Album :=
  (s.albums).insertionSort dateNameSpecLe

/-- Model of `Album.updateOrder`:
`UPDATE albums SET custom_order = ?, updated_at = ? WHERE id = ?`. -/
def updateOrder (s : DBState) (id newOrder : Nat) : DBState :=
  { s with
      albums := s.albums.map (fun a =>
        if a.id == id then
          { a with custom_order := some newOrder, updated_at := s.now }
        else a) }

/-- Model of `Album.delete`: the three sequential DELETE statements —
photos of the album, its `album_order` row, then the album row itself. -/
def delete (s : DBState) (id : Nat) : DBState :=
  let s1 : DBState :=
    { s with photos := s.photos.filter (fun p => p.album_id != id) }
  let s2 : DBState :=
    { s1 with albumOrder := s1.albumOrder.filter (fun o => o.album_id != id) }
  { s2 with albums := s2.albums.filter (fun a => a.id != id) }

end Album

namespace AlbumService

/-- Model of `albumService.deleteAlbum`: look the album up (throwing a
not-found error when absent), delete its blob records from IndexedDB,
then run `Album.delete` for the SQLite side. -/
def deleteAlbum (s : DBState) (id : Nat) : DBState × Except String Unit :=
  match Album.findById s id with
  | none => (s, .error ("Album with ID " ++ toString id ++ " not found"))
  | some album =>
    (Album.delete (Storage.deletePhotosByAlbum s id) album.id, .ok ())

/-- The per-id body of `albumService.reorderAlbums`, applied to the ids in
order with their indices: `Album.findById(albumId)` then, only when an
album was found, `album.updateOrder(index)`; unknown ids fall through
silently. -/
def reorderGo : DBState → List Nat → Nat → DBState
  | s, [], _ => s
  | s, albumId :: rest, index =>
    let s1 :=
      match Album.findById s albumId with
      | some _ => Album.updateOrder s albumId index
      | none => s
    reorderGo s1 rest (index + 1)

/-- Model of `albumService.reorderAlbums`: update `custom_order` of each
listed album to its index in the list; the promise always resolves. -/
def reorderAlbums (s : DBState) (albumIds : List Nat) :
    DBState × Except String Unit :=
  (reorderGo s albumIds 0, .ok ())

end AlbumService

namespace UploadService

instance : DecidableEq (Except String Unit) := fun a b =>
  match a, b with
  | .ok (), .ok () => isTrue rfl
  | .ok (), .error _ => isFalse (by simp)
  | .error _, .ok () => isFalse (by simp)
  | .error e, .error f =>
    if h : e = f then isTrue (by rw [h]) else isFalse (by simp [h])

/-- A queued upload task as `UploadQueue` sees it: the metadata captured
at enqueue time (the filename) together with the outcome the
`uploadTask` closure will produce when awaited.  The queue treats the
closures opaquely, so a task is modelled by its outcome. -/
structure TaskR where
  filename : String
  outcome : Except String Unit
  deriving DecidableEq, Repr, Inhabited

/-- The result object a call to `executeUpload` resolves with (it never
rejects: every error of the task is caught and classified). -/
structure ItemRes where
  success : Bool
  filename : String
  errMsg : Option String
  deriving DecidableEq, Repr, Inhabited

/-- The result `executeUpload` reports for one task. -/
def mkItemRes (t : TaskR) : ItemRes :=
  match t.outcome with
  | .ok _ => { success := true, filename := t.filename, errMsg := none }
  | .error e => { success := false, filename := t.filename, errMsg := some e }

/-- The tri-partition of outcomes the queue accumulates. -/
structure Results where
  successful : List String
  failed : List (String × String)
  duplicates : List (String × String)
  deriving DecidableEq, Repr, Inhabited

/-- Does the second character list start the first?  Helper for the
JavaScript `String.prototype.includes` test. -/
def charsStartWith : List Char → List Char → Bool
  | [], _ => true
  | _ :: _, [] => false
  | a :: as, b :: bs => a == b && charsStartWith as bs

/-- Does `needle` occur contiguously in the list? -/
def charsInclude (needle : List Char) : List Char → Bool
  | [] => charsStartWith needle []
  | b :: bs => charsStartWith needle (b :: bs) || charsInclude needle bs

/-- Model of `haystack.includes(needle)`. -/
def includes (haystack needle : String) : Bool :=
  charsInclude needle.data haystack.data

/-- Model of `UploadQueue.executeUpload`'s bucket updates: a resolved
task goes to `successful`; a rejected one goes to `duplicates` when its
message includes 'Duplicate photo' and to `failed` otherwise. -/
def executeUpload (res : Results) (t : TaskR) : Results :=
  match t.outcome with
  | .ok _ => { res with successful := res.successful ++ [t.filename] }
  | .error e =>
    if includes e "Duplicate photo" then
      { res with duplicates := res.duplicates ++ [(t.filename, e)] }
    else
      { res with failed := res.failed ++ [(t.filename, e)] }

/-- State of a run of `UploadQueue.process`: pending queue, in-flight
tasks, completion counter, accumulated buckets, the list of
`onProgress(completed, total, result)` invocations so far, and a ghost
trace recording `(active.length, queue.length)` at each `Promise.race`
(i.e. at each point the scheduler waits for a completion). -/
structure QS where
  queue : List TaskR
  active : List TaskR
  completed : Nat
  results : Results
  progress : List (Nat × Nat × ItemRes)
  races : List (Nat × Nat)
  deriving Repr

/-- The inner `while` of `UploadQueue.process`: start queued tasks until
`active.length` reaches `maxConcurrent` or the queue runs dry. -/
def refill (maxC : Nat) : List TaskR → List TaskR → List TaskR × List TaskR
  | [], active => ([], active)
  | t :: ts, active =>
    if active.length < maxC then refill maxC ts (active ++ [t])
    else (t :: ts, active)

/-- The outer loop of `UploadQueue.process`.  Each iteration refills the
active window, then awaits `Promise.race(active)`: the oracle picks which
in-flight task completes, nondeterminism of the event loop being
quantified over.  The completing task bumps the counter, fires
`onProgress(completed, total, result)` and files its result in a bucket.
Fuel bounds the iteration count; `queue.length + active.length` fuel
suffices since every iteration completes exactly one task. -/
def runQueue (maxC total : Nat) : List Nat → Nat → QS → QS
  | _, 0, st => st
  | oracle, fuel + 1, st =>
    if st.queue.isEmpty && st.active.isEmpty then st
    else
      let q2 := (refill maxC st.queue st.active).1
      let a2 := (refill maxC st.queue st.active).2
      if a2.length = 0 then { st with queue := q2, active := a2 }
      else
        let i := (oracle.headD 0) % a2.length
        let t := a2.getD i default
        runQueue maxC total oracle.tail fuel
          { queue := q2,
            active := a2.eraseIdx i,
            completed := st.completed + 1,
            results := executeUpload st.results t,
            progress := st.progress ++ [(st.completed + 1, total, mkItemRes t)],
            races := st.races ++ [(a2.length, q2.length)] }

/-- Model of `uploadPhotos`'s `queue.process(onProgress)` over the task
list, with the hard-coded window of 3 concurrent uploads, starting from
the freshly filled queue. -/
def processQueue (tasks : List TaskR) (oracle : List Nat) : QS :=
  runQueue 3 tasks.length oracle tasks.length
    { queue := tasks, active := [], completed := 0,
      results := { successful := [], failed := [], duplicates := [] },
      progress := [], races := [] }

end UploadService

/-! ### Concrete fixtures used by the closed theorems and witnesses -/

/-- A small valid JPEG upload. -/
def fileA : JsFile :=
  { name := "a.jpg", ftype := "image/jpeg", size := 3, bytes := [1, 2, 3],
    readable := true, width := 10, height := 8, decodable := true,
    thumb := [9] }

/-- A second file with a different name but the same bytes as `fileA`. -/
def fileB : JsFile := { fileA with name := "b.jpg" }

/-- Two freshly created albums (ids 1 and 2) in an otherwise empty store. -/
def twoAlbums : DBState :=
  (AlbumService.create (AlbumService.create emptyDB "Trip" "2024-01-01").1
    "Work" "2024-02-01").1

/-- The state after successfully ingesting `fileA` into album 1. -/
def afterFirstUpload : DBState := (PhotoService.add twoAlbums 1 fileA).1

/-- Two albums sharing a date, named so that name order and creation order
disagree: "A" (id 1) was created before "B" (id 2). -/
def c6pair : DBState :=
  { emptyDB with albums := [
      { id := 1, name := "A", date := "2024-01-01", custom_order := some 0,
        created_at := 0, updated_at := 0 },
      { id := 2, name := "B", date := "2024-01-01", custom_order := some 1,
        created_at := 1, updated_at := 1 }] }

/-- The spec's own date-mode example: albums "B", "A" (both 2024-01-01)
and "C" (2024-02-01), created in that listed order. -/
def c6example : DBState :=
  { emptyDB with albums := [
      { id := 1, name := "B", date := "2024-01-01", custom_order := some 0,
        created_at := 0, updated_at := 0 },
      { id := 2, name := "A", date := "2024-01-01", custom_order := some 1,
        created_at := 1, updated_at := 1 },
      { id := 3, name := "C", date := "2024-02-01", custom_order := some 2,
        created_at := 2, updated_at := 2 }] }

/-- A 101-character album name. -/
def name101 : String := String.mk (List.replicate 101 'a')

/-- A store already holding 100 albums, i.e. at the album cap. -/
def albums100 : DBState :=
  { emptyDB with
      albums := (List.range 100).map (fun i =>
        { id := i + 1, name := "A", date := "2024-01-01",
          custom_order := some i, created_at := 0, updated_at := 0 }),
      nextAlbumId := 101 }

/-- A batch of five upload tasks: three succeeding, one rejected as a
duplicate, one rejected by format validation. -/
def batch5 : List UploadService.TaskR :=
  [⟨"1.jpg", .ok ()⟩,
   ⟨"2.jpg", .error "Duplicate photo detected: 2.jpg already exists in this album"⟩,
   ⟨"3.jpg", .error "Unsupported file format: image/gif. Supported formats: JPEG, PNG, WebP, HEIC"⟩,
   ⟨"4.jpg", .ok ()⟩,
   ⟨"5.jpg", .ok ()⟩]

/-! ### Order-relation facts used by the sorting proofs -/

namespace Album

theorem ltChars_total :
    ∀ l₁ l₂ : List Char, ltChars l₁ l₂ = true ∨ ltChars l₂ l₁ = true ∨ l₁ = l₂
  | [], [] => Or.inr (Or.inr rfl)
  | [], _ :: _ => Or.inl rfl
  | _ :: _, [] => Or.inr (Or.inl rfl)
  | c :: cs, d :: ds => by
    rcases Nat.lt_trichotomy c.toNat d.toNat with h | h | h
    · exact Or.inl (by simp [ltChars, h])
    · have hcd : c = d := Char.eq_of_val_eq (UInt32.ext_iff.mpr h)
      subst hcd
      rcases ltChars_total cs ds with h2 | h2 | h2
      · exact Or.inl (by simp [ltChars, h2])
      · exact Or.inr (Or.inl (by simp [ltChars, h2]))
      · exact Or.inr (Or.inr (by rw [h2]))
    · exact Or.inr (Or.inl (by simp [ltChars, h, Nat.not_lt_of_gt h]))

theorem ltChars_trans :
    ∀ l₁ l₂ l₃ : List Char, ltChars l₁ l₂ = true → ltChars l₂ l₃ = true →
      ltChars l₁ l₃ = true
  | [], [], _, h12, _ => by simp [ltChars] at h12
  | _ :: _, [], _, h12, _ => by simp [ltChars] at h12
  | [], _ :: _, [], _, h23 => by simp [ltChars] at h23
  | [], _ :: _, _ :: _, _, _ => rfl
  | _ :: _, _ :: _, [], _, h23 => by simp [ltChars] at h23
  | c :: cs, d :: ds, e :: es, h12, h23 => by
    simp only [ltChars] at h12 h23 ⊢
    by_cases h1 : c.toNat < d.toNat <;> by_cases h2 : d.toNat < e.toNat
    · simp [Nat.lt_trans h1 h2]
    · by_cases h2' : e.toNat < d.toNat
      · simp [h2, h2'] at h23
      · have hde : d.toNat = e.toNat :=
          Nat.le_antisymm (Nat.le_of_not_lt h2') (Nat.le_of_not_lt h2)
        simp [hde ▸ h1]
    · by_cases h1' : d.toNat < c.toNat
      · simp [h1, h1'] at h12
      · have hcd : c.toNat = d.toNat :=
          Nat.le_antisymm (Nat.le_of_not_lt h1') (Nat.le_of_not_lt h1)
        simp [hcd ▸ h2]
    · by_cases h1' : d.toNat < c.toNat
      · simp [h1, h1'] at h12
      · by_cases h2' : e.toNat < d.toNat
        · simp [h2, h2'] at h23
        · have hcd : c.toNat = d.toNat :=
            Nat.le_antisymm (Nat.le_of_not_lt h1') (Nat.le_of_not_lt h1)
          have hde : d.toNat = e.toNat :=
            Nat.le_antisymm (Nat.le_of_not_lt h2') (Nat.le_of_not_lt h2)
          simp [h1, h1'] at h12
          simp [h2, h2'] at h23
          simp [ltChars_trans cs ds es h12 h23]
          omega

instance : IsTotal Album customOrderLe := ⟨fun _ _ => Nat.le_total _ _⟩

instance : IsTrans Album customOrderLe := ⟨fun _ _ _ => Nat.le_trans⟩

instance : IsTotal Album dateCreatedDescLe := by
  constructor
  intro a b
  rcases ltChars_total a.date.data b.date.data with h | h | h
  · exact Or.inr (Or.inl h)
  · exact Or.inl (Or.inl h)
  · have hd : a.date = b.date := String.ext h
    rcases Nat.le_total a.created_at b.created_at with h2 | h2
    · exact Or.inr (Or.inr ⟨hd, h2⟩)
    · exact Or.inl (Or.inr ⟨hd.symm, h2⟩)

instance : IsTrans Album dateCreatedDescLe := by
  constructor
  intro a b c hab hbc
  rcases hab with h1 | ⟨e1, l1⟩
  · rcases hbc with h2 | ⟨e2, _⟩
    · exact Or.inl (ltChars_trans _ _ _ h2 h1)
    · exact Or.inl (e2 ▸ h1)
  · rcases hbc with h2 | ⟨e2, l2⟩
    · exact Or.inl (e1 ▸ h2)
    · exact Or.inr ⟨e2.trans e1, l2.trans l1⟩

end Album

/-! ### Closed evaluations at concrete inputs -/

set_option maxRecDepth 40000 in
/-- C1: uploading the same bytes into two different albums.  The claim
says both uploads succeed with both the metadata row and the blob pair of
the second album committed.  On the code, the first upload succeeds, but
the second upload's blob-pair write is rejected by the IndexedDB
`fileHash` index that `initStorage` created with `unique: true` (a
*global* uniqueness constraint, contradicting the per-album
`idx_photos_album_hash` unique index of the SQLite schema and the
per-album `findByAlbumAndHash` duplicate check): the call rejects with a
ConstraintError, the already-inserted metadata row for album 2 is left
orphaned, and no blob pair for album 2 exists. -/
theorem c1_cross_album_second_upload_fails :
    (PhotoService.add twoAlbums 1 fileA).2.isOk = true ∧
    (PhotoService.add afterFirstUpload 2 fileB).2 = .error "ConstraintError" ∧
    ((PhotoService.add afterFirstUpload 2 fileB).1.photos.filter
      (fun p => p.album_id == 2)).length = 1 ∧
    ((PhotoService.add afterFirstUpload 2 fileB).1.blobs.filter
      (fun b => b.albumId == 2)).length = 0 :=
  ⟨rfl, rfl, rfl, rfl⟩

set_option maxRecDepth 40000 in
/-- C2 counterexample: for `fileA` ("a.jpg") already in album 1 and
`fileB` ("b.jpg") carrying the same bytes, the second ingest is rejected
with a message that names the *incoming* file "b.jpg" and does not
contain the original filename "a.jpg" — refuting the claim that the
DuplicateError names the original filename. -/
theorem c2_duplicate_message_counterexample :
    (PhotoService.add afterFirstUpload 1 fileB).2 =
      .error "Duplicate photo detected: b.jpg already exists in this album" ∧
    (fileA.name == fileB.name) = false ∧
    UploadService.includes
      "Duplicate photo detected: b.jpg already exists in this album"
      fileB.name = true ∧
    UploadService.includes
      "Duplicate photo detected: b.jpg already exists in this album"
      fileA.name = false :=
  ⟨rfl, rfl, rfl, rfl⟩

/-- C6 counterexample: two albums share the date 2024-01-01; "A" (id 1)
was created before "B" (id 2).  The date-mode listing returns ["B", "A"]
(`created_at` descending), while the spec's claimed name-ascending
tie-break would return ["A", "B"] — so the two orders differ. -/
theorem c6_tiebreak_counterexample :
    (Album.findAllByDate c6pair).map Album.name = ["B", "A"] ∧
    (Album.findAllByDateSpec c6pair).map Album.name = ["A", "B"] ∧
    Album.findAllByDate c6pair ≠ Album.findAllByDateSpec c6pair := by
  refine ⟨rfl, rfl, fun h => ?_⟩
  have h1 : (Album.findAllByDate c6pair).map Album.name = ["B", "A"] := rfl
  have h2 : (Album.findAllByDateSpec c6pair).map Album.name = ["A", "B"] := rfl
  rw [h, h2] at h1
  simp at h1

/-- C8 counterexample: `albumService.create` accepts a name whose trimmed
length is 101 characters, and accepts the far-future date 2999-12-31
(future relative to, e.g., 2026-10-11) — refuting the claim that creation
rejects over-long names and future dates. -/
theorem c8_create_counterexample :
    (jsTrim name101).length = 101 ∧
    (AlbumService.create emptyDB name101 "2024-01-01").2.isOk = true ∧
    (AlbumService.create emptyDB "Trip" "2999-12-31").2.isOk = true ∧
    isFutureDate "2999-12-31" (2026, 10, 11) = true :=
  ⟨rfl, rfl, rfl, rfl⟩

/-- Inversion of a successful `Photo.create`: the returned row, the new
photos table, the blob-store uniqueness guard that must have been false,
and the new blob record keyed by the row's fresh id. -/
theorem create_ok_spec (s : DBState) (aid : Nat) (fn : String) (fh : String)
    (fs : Nat) (fmt : String) (w h : Nat) (pb tb : List Nat) (s2 : DBState) (p : Photo)
    (hc : Photo.create s aid fn fh fs fmt w h pb tb = (s2, .ok p)) :
    p = { id := s.nextPhotoId, album_id := aid, filename := fn, file_hash := fh,
          upload_timestamp := s.now, file_size := fs, format := fmt,
          width := w, height := h } ∧
    s2.photos = s.photos ++ [p] ∧
    (s.blobs.any (fun b => b.fileHash == fh && b.id != s.nextPhotoId)) = false ∧
    s2.blobs = s.blobs.filter (fun b => b.id != s.nextPhotoId) ++
      [{ id := s.nextPhotoId, albumId := aid, photo := pb, thumbnail := tb,
         fileHash := fh, timestamp := s.now }] ∧
    s2.albums = s.albums ∧ s2.now = s.now := by
  simp only [Photo.create, Storage.storePhoto] at hc
  by_cases hg : (s.blobs.any fun b => b.fileHash == fh && b.id != s.nextPhotoId) = true
  · rw [if_pos hg] at hc
    simp at hc
  · rw [if_neg hg] at hc
    simp only [Prod.mk.injEq, Except.ok.injEq] at hc
    obtain ⟨hs2, hp⟩ := hc
    subst hp
    refine ⟨rfl, ?_, by simpa using hg, ?_, ?_, ?_⟩ <;> rw [← hs2]

/-- Inversion of a successful `photoService.add`: the format was valid,
the album was under capacity, the content hash was computed successfully
(and is the row's `file_hash`), no (album, fingerprint) row existed, and
the returned photo and the two stores are as the pipeline writes them. -/
theorem add_ok_spec (s : DBState) (albumId : Nat) (f : JsFile) (p : Photo)
    (h : (PhotoService.add s albumId f).2 = .ok p) :
    PhotoService.validFormats.contains f.ftype = true ∧
    Photo.countByAlbum s albumId < 500 ∧
    calculateFileHash f = .ok p.file_hash ∧
    Photo.findByAlbumAndHash s albumId p.file_hash = none ∧
    p.album_id = albumId ∧
    p.id = s.nextPhotoId ∧ p.filename = f.name ∧
    (PhotoService.add s albumId f).1.photos = s.photos ++ [p] ∧
    (s.blobs.any (fun b => b.fileHash == p.file_hash &&
      b.id != s.nextPhotoId)) = false ∧
    (PhotoService.add s albumId f).1.blobs =
      s.blobs.filter (fun b => b.id != s.nextPhotoId) ++
      [{ id := s.nextPhotoId, albumId := albumId, photo := f.bytes,
         thumbnail := f.thumb, fileHash := p.file_hash,
         timestamp := s.now }] := by
  by_cases h1 : f.ftype ∈ PhotoService.validFormats
  case neg => simp [PhotoService.add, PhotoService.addT, h1] at h
  by_cases h2 : 500 ≤ Photo.countByAlbum s albumId
  case pos => simp [PhotoService.add, PhotoService.addT, h1, h2] at h
  rcases hhash : calculateFileHash f with e | fh
  · simp [PhotoService.add, PhotoService.addT, h1, h2, hhash] at h
  rcases hdup : Photo.findByAlbumAndHash s albumId fh with _ | q
  on_goal 2 => simp [PhotoService.add, PhotoService.addT, h1, h2, hhash, hdup] at h
  rcases hdims : getImageDimensions f with e | dims
  · simp [PhotoService.add, PhotoService.addT, h1, h2, hhash, hdup, hdims] at h
  rcases hthumb : generateThumbnail f with e | tb
  · simp [PhotoService.add, PhotoService.addT, h1, h2, hhash, hdup, hdims, hthumb] at h
  rcases hcr : Photo.create s albumId f.name fh f.size
    (PhotoService.formatOf f) dims.1 dims.2 f.bytes tb with ⟨s2, r⟩
  rcases r with e | q2
  · simp [PhotoService.add, PhotoService.addT, h1, h2, hhash, hdup, hdims,
      hthumb, hcr] at h
  have hth : tb = f.thumb := by
    unfold generateThumbnail at hthumb
    split at hthumb
    · simpa using hthumb.symm
    · simp at hthumb
  subst hth
  obtain ⟨hq, hphotos, hguard, hblobs, _, _⟩ :=
    create_ok_spec _ _ _ _ _ _ _ _ _ _ _ _ hcr
  have hpq : q2 = p := by
    simp [PhotoService.add, PhotoService.addT, h1, h2, hhash, hdup, hdims,
      hthumb, hcr] at h
    exact h
  subst hpq
  have hstate : (PhotoService.add s albumId f).1 = s2 := by
    simp [PhotoService.add, PhotoService.addT, h1, h2, hhash, hdup, hdims,
      hthumb, hcr]
  rw [hstate]
  have hpfh : q2.file_hash = fh := by rw [hq]
  rw [hpfh]
  refine ⟨by simpa using h1, by omega, rfl, hdup, ?_, ?_, ?_, hphotos, hguard, hblobs⟩
    <;> rw [hq]

/-- C3: the ingestion pipeline of `photoService.add` performs its steps in
the specified order, short-circuiting on failure: every run's trace is a
prefix of the full step order (format validation first, before any I/O),
a successful run performs exactly the full order, the blob write is
attempted only in runs whose trace contains the earlier metadata write
(never blob before metadata), and on success the created row is in the
metadata store and the blob pair is stored under the identifier the
metadata store assigned. -/
theorem c3_pipeline_order (s : DBState) (albumId : Nat) (f : JsFile) :
    (PhotoService.addT s albumId f).trace <+: fullTrace ∧
    (PhotoService.addT s albumId f).trace.head? = some Step.validateFormat ∧
    ((PhotoService.addT s albumId f).result.isOk = true →
      (PhotoService.addT s albumId f).trace = fullTrace) ∧
    (Step.blobWrite ∈ (PhotoService.addT s albumId f).trace →
      (PhotoService.addT s albumId f).trace = fullTrace) ∧
    (∀ p, (PhotoService.addT s albumId f).result = .ok p →
      p ∈ (PhotoService.addT s albumId f).state.photos ∧
      ∃ b, b ∈ (PhotoService.addT s albumId f).state.blobs ∧ b.id = p.id) := by
  by_cases h1 : f.ftype ∈ PhotoService.validFormats
  case neg =>
    have hA : PhotoService.addT s albumId f =
        { state := s,
          result := .error ("Unsupported file format: " ++ f.ftype ++
            ". Supported formats: JPEG, PNG, WebP, HEIC"),
          trace := [.validateFormat] } := by
      simp [PhotoService.addT, h1]
    rw [hA]
    refine ⟨⟨[.capacityCheck, .hashCompute, .dupLookup, .dimExtract,
      .thumbDerive, .metaWrite, .blobWrite], rfl⟩, rfl, ?_, ?_, ?_⟩
    · intro h; simp [Except.isOk, Except.toBool] at h
    · intro h; simp [fullTrace] at h
    · intro p hp; simp at hp
  by_cases h2 : 500 ≤ Photo.countByAlbum s albumId
  case pos =>
    have hA : PhotoService.addT s albumId f =
        { state := s,
          result := .error "Album has reached maximum photo limit (500)",
          trace := [.validateFormat, .capacityCheck] } := by
      simp [PhotoService.addT, h1, h2]
    rw [hA]
    refine ⟨⟨[.hashCompute, .dupLookup, .dimExtract,
      .thumbDerive, .metaWrite, .blobWrite], rfl⟩, rfl, ?_, ?_, ?_⟩
    · intro h; simp [Except.isOk, Except.toBool] at h
    · intro h; simp [fullTrace] at h
    · intro p hp; simp at hp
  rcases hhash : calculateFileHash f with e | fh
  · have hA : PhotoService.addT s albumId f =
        { state := s, result := .error e,
          trace := [.validateFormat, .capacityCheck, .hashCompute] } := by
      simp [PhotoService.addT, h1, h2, hhash]
    rw [hA]
    refine ⟨⟨[.dupLookup, .dimExtract, .thumbDerive, .metaWrite, .blobWrite],
      rfl⟩, rfl, ?_, ?_, ?_⟩
    · intro h; simp [Except.isOk, Except.toBool] at h
    · intro h; simp [fullTrace] at h
    · intro p hp; simp at hp
  rcases hdup : Photo.findByAlbumAndHash s albumId fh with _ | q
  on_goal 2 =>
    have hA : PhotoService.addT s albumId f =
        { state := s,
          result := .error ("Duplicate photo detected: " ++ f.name ++
            " already exists in this album"),
          trace := [.validateFormat, .capacityCheck, .hashCompute, .dupLookup] } := by
      simp [PhotoService.addT, h1, h2, hhash, hdup]
    rw [hA]
    refine ⟨⟨[.dimExtract, .thumbDerive, .metaWrite, .blobWrite], rfl⟩, rfl, ?_, ?_, ?_⟩
    · intro h; simp [Except.isOk, Except.toBool] at h
    · intro h; simp [fullTrace] at h
    · intro p hp; simp at hp
  rcases hdims : getImageDimensions f with e | dims
  · have hA : PhotoService.addT s albumId f =
        { state := s, result := .error e,
          trace := [.validateFormat, .capacityCheck, .hashCompute,
            .dupLookup, .dimExtract] } := by
      simp [PhotoService.addT, h1, h2, hhash, hdup, hdims]
    rw [hA]
    refine ⟨⟨[.thumbDerive, .metaWrite, .blobWrite], rfl⟩, rfl, ?_, ?_, ?_⟩
    · intro h; simp [Except.isOk, Except.toBool] at h
    · intro h; simp [fullTrace] at h
    · intro p hp; simp at hp
  rcases hthumb : generateThumbnail f with e | tb
  · have hA : PhotoService.addT s albumId f =
        { state := s, result := .error e,
          trace := [.validateFormat, .capacityCheck, .hashCompute,
            .dupLookup, .dimExtract, .thumbDerive] } := by
      simp [PhotoService.addT, h1, h2, hhash, hdup, hdims, hthumb]
    rw [hA]
    refine ⟨⟨[.metaWrite, .blobWrite], rfl⟩, rfl, ?_, ?_, ?_⟩
    · intro h; simp [Except.isOk, Except.toBool] at h
    · intro h; simp [fullTrace] at h
    · intro p hp; simp at hp
  rcases hcr : Photo.create s albumId f.name fh f.size
    (PhotoService.formatOf f) dims.1 dims.2 f.bytes tb with ⟨s2, r⟩
  rcases r with e | q2
  · have hA : PhotoService.addT s albumId f =
        { state := s2, result := .error e, trace := fullTrace } := by
      simp [PhotoService.addT, h1, h2, hhash, hdup, hdims, hthumb, hcr]
    rw [hA]
    refine ⟨List.prefix_refl _, rfl, ?_, fun _ => rfl, ?_⟩
    · intro h; simp [Except.isOk, Except.toBool] at h
    · intro p hp; simp at hp
  · have hA : PhotoService.addT s albumId f =
        { state := s2, result := .ok q2, trace := fullTrace } := by
      simp [PhotoService.addT, h1, h2, hhash, hdup, hdims, hthumb, hcr]
    obtain ⟨hq, hphotos, hguard, hblobs, _, _⟩ :=
      create_ok_spec _ _ _ _ _ _ _ _ _ _ _ _ hcr
    rw [hA]
    refine ⟨List.prefix_refl _, rfl, fun _ => rfl, fun _ => rfl, ?_⟩
    intro p hp
    have hpq : p = q2 := by
      cases hp
      rfl
    subst hpq
    constructor
    · rw [hphotos]
      simp
    · refine ⟨?_, ?_, ?_⟩
      · exact ⟨s.nextPhotoId, albumId, f.bytes, tb, fh, s.now⟩
      · rw [hblobs]
        simp
      · rw [hq]

/-- Witness for C3: a successful concrete run performs the full pipeline
trace. -/
theorem c3_pipeline_order_witness :
    (PhotoService.addT twoAlbums 1 fileA).trace = fullTrace :=
  (c3_pipeline_order twoAlbums 1 fileA).2.2.1 rfl

/-- C2 (amended): for two valid, readable files with identical bytes
uploaded in sequence to the same album (still under its 500-photo cap
after the first upload), the second ingest fails with a DuplicateError
whose message names the *incoming* file's filename and contains the
'Duplicate photo' marker that the upload scheduler classifies duplicates
by; no merge occurs — the second call leaves the state unchanged — and
exactly one Photo row and exactly one blob record exist for that
(album id, content fingerprint). -/
theorem c2_same_album_duplicate_amended (s : DBState) (albumId : Nat) (f1 f2 : JsFile) (p : Photo)
    (hbytes : f2.bytes = f1.bytes)
    (hread2 : f2.readable = true)
    (hfmt2 : f2.ftype ∈ PhotoService.validFormats)
    (h1 : (PhotoService.add s albumId f1).2 = .ok p)
    (hcap : Photo.countByAlbum (PhotoService.add s albumId f1).1 albumId < 500) :
    (PhotoService.add (PhotoService.add s albumId f1).1 albumId f2).2 =
      .error ("Duplicate photo detected: " ++ f2.name ++
        " already exists in this album") ∧
    UploadService.includes ("Duplicate photo detected: " ++ f2.name ++
        " already exists in this album") "Duplicate photo" = true ∧
    (PhotoService.add (PhotoService.add s albumId f1).1 albumId f2).1 =
      (PhotoService.add s albumId f1).1 ∧
    ((PhotoService.add s albumId f1).1.photos.filter (fun q =>
      q.album_id == albumId && q.file_hash == p.file_hash)).length = 1 ∧
    ((PhotoService.add s albumId f1).1.blobs.filter (fun b =>
      b.fileHash == p.file_hash)).length = 1 := by
  obtain ⟨hfmt1, hcap1, hhash1, hdup1, hpa, hpid, hpfn, hphotos, hguard, hblobs⟩ :=
    add_ok_spec s albumId f1 p h1
  generalize hgen : (PhotoService.add s albumId f1).1 = s1 at hphotos hblobs hcap ⊢
  have hr1 : f1.readable = true := by
    by_cases hr : f1.readable
    · exact hr
    · simp [calculateFileHash, hr] at hhash1
  have hhex : Sha256.sha256Hex f1.bytes = p.file_hash := by
    simp [calculateFileHash, hr1] at hhash1
    exact hhash1
  have hhash2 : calculateFileHash f2 = .ok p.file_hash := by
    simp [calculateFileHash, hread2, hbytes, hhex]
  have hdup2 : Photo.findByAlbumAndHash s1
      albumId p.file_hash = some p := by
    unfold Photo.findByAlbumAndHash at hdup1 ⊢
    rw [hphotos, List.find?_append]
    rw [hdup1]
    simp [hpa]
  have hcap2 : ¬ 500 ≤ Photo.countByAlbum s1 albumId := by
    omega
  refine ⟨?_, ?_, ?_, ?_, ?_⟩
  · simp [PhotoService.add, PhotoService.addT, hfmt2, hcap2, hhash2, hdup2]
  · rfl
  · simp [PhotoService.add, PhotoService.addT, hfmt2, hcap2, hhash2, hdup2]
  · rw [hphotos, List.filter_append]
    have hnil : s.photos.filter (fun q => q.album_id == albumId &&
        q.file_hash == p.file_hash) = [] := by
      rw [List.filter_eq_nil_iff]
      intro q hq
      have hfind := List.find?_eq_none.mp hdup1 q hq
      simpa [Photo.findByAlbumAndHash] using hfind
    rw [hnil]
    simp [hpa]
  · rw [hblobs, List.filter_append]
    have hnil : (s.blobs.filter (fun b => b.id != s.nextPhotoId)).filter
        (fun b => b.fileHash == p.file_hash) = [] := by
      rw [List.filter_eq_nil_iff]
      intro b hb
      have hbmem := List.mem_filter.mp hb
      have hany := List.any_eq_false.mp hguard b hbmem.1
      intro hfh
      apply hany
      simp only [hfh, hbmem.2, Bool.and_self]
    rw [hnil]
    simp

set_option maxRecDepth 40000 in
/-- Witness for C2 (amended): the concrete duplicate upload of `fileB`
after `fileA` is rejected with the message naming `fileB`. -/
theorem c2_same_album_duplicate_amended_witness :
    (PhotoService.add (PhotoService.add twoAlbums 1 fileA).1 1 fileB).2 =
      .error ("Duplicate photo detected: " ++ fileB.name ++
        " already exists in this album") :=
  (c2_same_album_duplicate_amended twoAlbums 1 fileA fileB
    ⟨1, 1, "a.jpg", Sha256.sha256Hex [1, 2, 3], 0, 3, "jpeg", 10, 8⟩ rfl rfl
    (List.mem_cons_self _ _) (by rfl) (by decide)).1

/-- C6 (amended): the date-mode listing of `Album.findAllByDate` is, for
every store, a permutation of the albums sorted by date descending with
`created_at` descending — the most recently created album first — as the
tie-break for equal dates (not name ascending); on the spec's example,
with "B", "A" (both 2024-01-01) and "C" (2024-02-01) created in that
order, the returned name order is ["C", "A", "B"]. -/
theorem c6_date_sort_amended :
    (∀ s : DBState, (Album.findAllByDate s).Sorted Album.dateCreatedDescLe ∧
      (Album.findAllByDate s).Perm s.albums) ∧
    (Album.findAllByDate c6example).map Album.name = ["C", "A", "B"] := by
  constructor
  · intro s
    exact ⟨List.sorted_insertionSort _ _, List.perm_insertionSort _ _⟩
  · rfl

/-- Effect of `deletePhotosByAlbum`'s delete loop: deleting each fetched
record by key removes exactly the records whose key collides with a
fetched one, and touches nothing else. -/
theorem foldl_deletePhoto_spec (L : List StoredBlob) (s : DBState) :
    (L.foldl (fun st p => Storage.deletePhoto st p.id) s).blobs =
      s.blobs.filter (fun b => !(L.any (fun p => b.id == p.id))) ∧
    (L.foldl (fun st p => Storage.deletePhoto st p.id) s).photos = s.photos ∧
    (L.foldl (fun st p => Storage.deletePhoto st p.id) s).albums = s.albums ∧
    (L.foldl (fun st p => Storage.deletePhoto st p.id) s).albumOrder = s.albumOrder := by
  induction L generalizing s with
  | nil => simp
  | cons p L ih =>
    obtain ⟨hb, hp, ha, ho⟩ := ih (Storage.deletePhoto s p.id)
    refine ⟨?_, by simpa [Storage.deletePhoto] using hp,
      by simpa [Storage.deletePhoto] using ha,
      by simpa [Storage.deletePhoto] using ho⟩
    rw [List.foldl_cons, hb]
    simp only [Storage.deletePhoto, List.filter_filter]
    apply List.filter_congr
    intro b _
    simp [List.any_cons, Bool.not_or, bne]
    exact Bool.and_comm _ _

/-- C4: deleting an album with any number of photos cascades: on a known
album id the call resolves, all Photo rows and the ordering rows of that
album are removed (and rows of other albums are preserved exactly), no
blob record of that album remains, and under the blob store's key
uniqueness the remaining blob records are exactly those of the other
albums; on an unknown id the call rejects with the not-found error and
the state is untouched — a partially deleted album is never observable. -/
theorem c4_cascade_delete (s : DBState) (id : Nat) :
    ((Album.findById s id).isSome = true →
      (AlbumService.deleteAlbum s id).2 = .ok () ∧
      (AlbumService.deleteAlbum s id).1.photos =
        s.photos.filter (fun p => p.album_id != id) ∧
      ((AlbumService.deleteAlbum s id).1.photos.filter
        (fun p => p.album_id == id)) = [] ∧
      (AlbumService.deleteAlbum s id).1.albumOrder =
        s.albumOrder.filter (fun o => o.album_id != id) ∧
      (AlbumService.deleteAlbum s id).1.albums =
        s.albums.filter (fun a => a.id != id) ∧
      ((AlbumService.deleteAlbum s id).1.blobs.filter
        (fun b => b.albumId == id)) = [] ∧
      ((s.blobs.map StoredBlob.id).Nodup →
        (AlbumService.deleteAlbum s id).1.blobs =
          s.blobs.filter (fun b => b.albumId != id))) ∧
    ((Album.findById s id).isSome = false →
      (AlbumService.deleteAlbum s id).2 =
        .error ("Album with ID " ++ toString id ++ " not found") ∧
      (AlbumService.deleteAlbum s id).1 = s) := by
  rcases hfind : Album.findById s id with _ | a
  · refine ⟨fun h => by simp [hfind] at h, fun _ => ?_⟩
    constructor <;> simp [AlbumService.deleteAlbum, hfind]
  · have haid : a.id = id := by
      have := List.find?_some hfind
      simpa using this
    obtain ⟨hb, hp, ha, ho⟩ :=
      foldl_deletePhoto_spec (Storage.getPhotosByAlbum s id) s
    have hdel : (AlbumService.deleteAlbum s id).1 =
        Album.delete (Storage.deletePhotosByAlbum s id) a.id := by
      simp [AlbumService.deleteAlbum, hfind]
    refine ⟨fun _ => ?_, fun h => by simp [hfind] at h⟩
    rw [haid] at hdel
    refine ⟨by simp [AlbumService.deleteAlbum, hfind], ?_, ?_, ?_, ?_, ?_, ?_⟩
    · rw [hdel]
      simp only [Album.delete, Storage.deletePhotosByAlbum]
      rw [hp]
    · rw [hdel]
      simp only [Album.delete, Storage.deletePhotosByAlbum]
      rw [hp]
      rw [List.filter_filter, List.filter_eq_nil_iff]
      intro p _
      simp [bne]
    · rw [hdel]
      simp only [Album.delete, Storage.deletePhotosByAlbum]
      rw [ho]
    · rw [hdel]
      simp only [Album.delete, Storage.deletePhotosByAlbum]
      rw [ha]
    · rw [hdel]
      simp only [Album.delete, Storage.deletePhotosByAlbum]
      rw [hb]
      rw [List.filter_filter, List.filter_eq_nil_iff]
      intro b hbmem
      intro hcontra
      rw [Bool.and_eq_true] at hcontra
      obtain ⟨haid2, hany⟩ := hcontra
      have hbinL : b ∈ Storage.getPhotosByAlbum s id := by
        unfold Storage.getPhotosByAlbum
        exact List.mem_filter.mpr ⟨hbmem, haid2⟩
      have hanytrue : (Storage.getPhotosByAlbum s id).any
          (fun p => b.id == p.id) = true :=
        List.any_eq_true.mpr ⟨b, hbinL, by simp⟩
      rw [hanytrue] at hany
      simp at hany
    · intro hnd
      rw [hdel]
      simp only [Album.delete, Storage.deletePhotosByAlbum]
      rw [hb]
      apply List.filter_congr
      intro b hbmem
      by_cases hbaid : b.albumId = id
      · have hbinL : b ∈ Storage.getPhotosByAlbum s id := by
          simp [Storage.getPhotosByAlbum, hbmem, hbaid]
        have : (Storage.getPhotosByAlbum s id).any (fun p => b.id == p.id) = true := by
          rw [List.any_eq_true]
          exact ⟨b, hbinL, by simp⟩
        simp [this, hbaid, bne]
      · have : (Storage.getPhotosByAlbum s id).any (fun p => b.id == p.id) = false := by
          rw [List.any_eq_false]
          intro p hpL
          have hpmem := (List.mem_filter.mp hpL).1
          have hpaid : p.albumId = id := by
            have := (List.mem_filter.mp hpL).2
            simpa using this
          intro hpid
          have hpid2 : b.id = p.id := by simpa using hpid
          have : b = p := by
            have hinj := List.inj_on_of_nodup_map hnd
            exact hinj hbmem hpmem hpid2
          rw [this] at hbaid
          exact hbaid hpaid
        simp [this, hbaid, bne]

/-- Witness for C4: deleting concrete album 1, which holds one photo and
one blob pair, succeeds and leaves no blob record for album 1. -/
theorem c4_cascade_delete_witness :
    (AlbumService.deleteAlbum afterFirstUpload 1).2 = .ok () ∧
    ((AlbumService.deleteAlbum afterFirstUpload 1).1.blobs.filter
      (fun b => b.albumId == 1)) = [] :=
  ⟨((c4_cascade_delete afterFirstUpload 1).1 (by rfl)).1,
   ((c4_cascade_delete afterFirstUpload 1).1 (by rfl)).2.2.2.2.2.1⟩

/-- `Album.updateOrder` touches only the albums table. -/
theorem updateOrder_fields (s : DBState) (id k : Nat) :
    (Album.updateOrder s id k).photos = s.photos ∧
    (Album.updateOrder s id k).blobs = s.blobs ∧
    (Album.updateOrder s id k).albumOrder = s.albumOrder ∧
    (Album.updateOrder s id k).now = s.now ∧
    (Album.updateOrder s id k).albums = s.albums.map (fun a =>
      if a.id == id then
        { a with custom_order := some k, updated_at := s.now }
      else a) :=
  ⟨rfl, rfl, rfl, rfl, rfl⟩

/-- Effect of the per-id update loop of `reorderAlbums` starting at index
`k`: every album whose id occurs in the (duplicate-free) list gets
`custom_order := k + ` its index, with `updated_at` restamped; albums
whose id is not listed, and every other table, are untouched. -/
theorem reorderGo_spec (ids : List Nat) (hnd : ids.Nodup) :
    ∀ (s : DBState) (k : Nat),
    (AlbumService.reorderGo s ids k).albums =
      s.albums.map (fun a =>
        if a.id ∈ ids then
          { a with custom_order := some (k + ids.indexOf a.id),
                   updated_at := s.now }
        else a) ∧
    (AlbumService.reorderGo s ids k).photos = s.photos ∧
    (AlbumService.reorderGo s ids k).blobs = s.blobs ∧
    (AlbumService.reorderGo s ids k).albumOrder = s.albumOrder ∧
    (AlbumService.reorderGo s ids k).now = s.now := by
  induction ids with
  | nil =>
    intro s k
    simp [AlbumService.reorderGo]
  | cons id rest ih =>
    intro s k
    rw [List.nodup_cons] at hnd
    obtain ⟨hid, hndrest⟩ := hnd
    rcases hf : Album.findById s id with _ | a
    · have hbody : AlbumService.reorderGo s (id :: rest) k =
          AlbumService.reorderGo s rest (k + 1) := by
        simp [AlbumService.reorderGo, hf]
      obtain ⟨ha2, hp2, hb2, ho2, hn2⟩ := ih hndrest s (k + 1)
      rw [hbody]
      refine ⟨?_, hp2, hb2, ho2, hn2⟩
      rw [ha2]
      apply List.map_congr_left
      intro a ha
      have hne2 : a.id ≠ id := by
        have := List.find?_eq_none.mp hf a ha
        simpa using this
      by_cases hmem : a.id ∈ rest
      · have hmem2 : a.id ∈ id :: rest := List.mem_cons_of_mem _ hmem
        have hidx : (id :: rest).indexOf a.id = rest.indexOf a.id + 1 := by
          rw [List.indexOf_cons_ne]
          exact fun h => hne2 h.symm
        simp only [hmem, if_pos, hmem2, ite_true, hidx]
        have harith : k + 1 + rest.indexOf a.id = k + (rest.indexOf a.id + 1) := by
          omega
        rw [harith]
      · have hmem2 : a.id ∉ id :: rest := by simp [hne2, hmem]
        simp [hmem, hmem2]
    · have hbody : AlbumService.reorderGo s (id :: rest) k =
          AlbumService.reorderGo (Album.updateOrder s id k) rest (k + 1) := by
        simp [AlbumService.reorderGo, hf]
      obtain ⟨ha2, hp2, hb2, ho2, hn2⟩ :=
        ih hndrest (Album.updateOrder s id k) (k + 1)
      rw [hbody]
      refine ⟨?_, by rw [hp2]; rfl, by rw [hb2]; rfl, by rw [ho2]; rfl,
        by rw [hn2]; rfl⟩
      rw [ha2]
      simp only [Album.updateOrder, List.map_map]
      apply List.map_congr_left
      intro a _
      by_cases hcase : a.id = id
      · have h1 : (a.id == id) = true := by simp [hcase]
        have hmem : a.id ∈ id :: rest := by simp [hcase]
        have hidx : (id :: rest).indexOf a.id = 0 := by
          rw [hcase]
          exact List.indexOf_cons_self id rest
        have hnotin : a.id ∉ rest := by rw [hcase]; exact hid
        simp [Function.comp, h1, hmem, hidx, hnotin]
      · have h1 : (a.id == id) = false := by simp [hcase]
        by_cases hmem : a.id ∈ rest
        · have hmem2 : a.id ∈ id :: rest := List.mem_cons_of_mem _ hmem
          have hidx : (id :: rest).indexOf a.id = rest.indexOf a.id + 1 := by
            rw [List.indexOf_cons_ne]
            exact fun h => hcase h.symm
          have harith : k + 1 + rest.indexOf a.id = k + (rest.indexOf a.id + 1) := by
            omega
          simp [Function.comp, h1, hmem, hmem2, hidx, harith]
        · have hmem2 : a.id ∉ id :: rest := by simp [hcase, hmem]
          simp [Function.comp, h1, hmem, hmem2]

/-- A duplicate-free list is strictly sorted by the index of its own
elements. -/
theorem pairwise_indexOf_lt (l : List Nat) (h : l.Nodup) :
    l.Pairwise (fun x y => l.indexOf x < l.indexOf y) := by
  rw [List.pairwise_iff_getElem]
  intro i j hi hj hij
  rw [List.indexOf_getElem h i hi, List.indexOf_getElem h j hj]
  exact hij

/-- `albumService.reorderAlbums` always resolves, sets each listed
album's `custom_order` to the id's index in the list, silently skips ids
matching no album (their known neighbours keep their new positions —
nothing is rolled back), leaves unlisted albums untouched, and never
modifies the photo or blob stores. -/
theorem reorderAlbums_spec (s : DBState) (ids : List Nat) (hnd : ids.Nodup) :
    (AlbumService.reorderAlbums s ids).2 = .ok () ∧
    (AlbumService.reorderAlbums s ids).1.albums = s.albums.map (fun a =>
      if a.id ∈ ids then
        { a with custom_order := some (ids.indexOf a.id), updated_at := s.now }
      else a) ∧
    (∀ a ∈ s.albums, a.id ∉ ids →
      a ∈ (AlbumService.reorderAlbums s ids).1.albums) ∧
    (AlbumService.reorderAlbums s ids).1.photos = s.photos ∧
    (AlbumService.reorderAlbums s ids).1.blobs = s.blobs := by
  obtain ⟨ha, hp, hb, ho, hn⟩ := reorderGo_spec ids hnd s 0
  have ha0 : (AlbumService.reorderAlbums s ids).1.albums =
      s.albums.map (fun a =>
        if a.id ∈ ids then
          { a with custom_order := some (ids.indexOf a.id), updated_at := s.now }
        else a) := by
    show (AlbumService.reorderGo s ids 0).albums = _
    rw [ha]
    apply List.map_congr_left
    intro a _
    by_cases hmem : a.id ∈ ids <;> simp [hmem]
  refine ⟨rfl, ha0, ?_, hp, hb⟩
  intro a ha2 hnotin
  rw [ha0]
  exact List.mem_map.mpr ⟨a, ha2, by simp [hnotin]⟩

/-- C7: for a duplicate-free list of ids that enumerates exactly the
existing albums, `reorderAlbums` assigns each album the position equal to
its id's index in the list, and the subsequent custom-mode listing
(`Album.findAll`, `ORDER BY custom_order ASC`) returns the albums in
exactly the given list order — the reorder/resolve round-trip. -/
theorem c7_reorder_roundtrip (s : DBState) (ids : List Nat)
    (hnd : ids.Nodup)
    (hids : (s.albums.map Album.id).Nodup)
    (hcov : ∀ a ∈ s.albums, a.id ∈ ids)
    (hexist : ∀ i ∈ ids, ∃ a ∈ s.albums, a.id = i) :
    (∀ a ∈ (AlbumService.reorderAlbums s ids).1.albums,
      a.custom_order = some (ids.indexOf a.id)) ∧
    (Album.findAll (AlbumService.reorderAlbums s ids).1).map Album.id = ids := by
  obtain ⟨h_ok, ha0, _, _, _⟩ := reorderAlbums_spec s ids hnd
  have horders : ∀ a ∈ (AlbumService.reorderAlbums s ids).1.albums,
      a.custom_order = some (ids.indexOf a.id) := by
    intro a hmem
    rw [ha0] at hmem
    obtain ⟨a0, ha0mem, hfa⟩ := List.mem_map.mp hmem
    have hin : a0.id ∈ ids := hcov a0 ha0mem
    rw [if_pos hin] at hfa
    rw [← hfa]
  have hidsame : (AlbumService.reorderAlbums s ids).1.albums.map Album.id =
      s.albums.map Album.id := by
    rw [ha0, List.map_map]
    apply List.map_congr_left
    intro a _
    by_cases hmem : a.id ∈ ids <;> simp [Function.comp, hmem]
  refine ⟨horders, ?_⟩
  set s' := (AlbumService.reorderAlbums s ids).1 with hs'
  -- permutation of the sorted list with s'.albums
  have hperm1 : (Album.findAll s').Perm s'.albums := List.perm_insertionSort _ _
  have hpermids : ((Album.findAll s').map Album.id).Perm ids := by
    refine (hperm1.map Album.id).trans ?_
    rw [hidsame]
    rw [List.perm_ext_iff_of_nodup hids hnd]
    intro i
    constructor
    · intro hi
      obtain ⟨a, hamem, haid⟩ := List.mem_map.mp hi
      rw [← haid]
      exact hcov a hamem
    · intro hi
      obtain ⟨a, hamem, haid⟩ := hexist i hi
      exact List.mem_map.mpr ⟨a, hamem, haid⟩
  -- sortedness of the result wrt strict indexOf order
  have hsorted : (Album.findAll s').Sorted Album.customOrderLe :=
    List.sorted_insertionSort _ _
  have hnd' : ((Album.findAll s').map Album.id).Nodup := by
    rw [List.Perm.nodup_iff (hperm1.map Album.id)]
    rw [hidsame]
    exact hids
  have halbmem : ∀ a ∈ s'.albums, a.id ∈ ids := by
    intro a hmem
    have : a.id ∈ s'.albums.map Album.id := List.mem_map.mpr ⟨a, hmem, rfl⟩
    rw [hidsame] at this
    obtain ⟨a0, ha0mem, ha0id⟩ := List.mem_map.mp this
    rw [← ha0id]
    exact hcov a0 ha0mem
  have hpairne : (Album.findAll s').Pairwise (fun a b => a.id ≠ b.id) :=
    List.pairwise_map.mp hnd'
  have hpairlt : (Album.findAll s').Pairwise
      (fun a b => ids.indexOf a.id < ids.indexOf b.id) := by
    have hsortedP : (Album.findAll s').Pairwise Album.customOrderLe := hsorted
    rw [List.pairwise_iff_getElem] at hsortedP hpairne ⊢
    intro i j hi hj hij
    have h1 := hsortedP i j hi hj hij
    have h2 := hpairne i j hi hj hij
    have m1 : (Album.findAll s')[i] ∈ s'.albums :=
      hperm1.mem_iff.mp (List.getElem_mem hi)
    have m2 : (Album.findAll s')[j] ∈ s'.albums :=
      hperm1.mem_iff.mp (List.getElem_mem hj)
    have o1 := horders _ m1
    have o2 := horders _ m2
    have hin1 : (Album.findAll s')[i].id ∈ ids := halbmem _ m1
    have hin2 : (Album.findAll s')[j].id ∈ ids := halbmem _ m2
    have hle : ids.indexOf (Album.findAll s')[i].id ≤
        ids.indexOf (Album.findAll s')[j].id := by
      have := h1
      unfold Album.customOrderLe Album.orderKey at this
      rw [o1, o2] at this
      simp at this
      omega
    have hne : ids.indexOf (Album.findAll s')[i].id ≠
        ids.indexOf (Album.findAll s')[j].id := by
      intro heq
      exact h2 ((List.indexOf_inj hin1 hin2).mp heq)
    omega
  have hsortedA : ((Album.findAll s').map Album.id).Pairwise
      (fun x y => ids.indexOf x < ids.indexOf y) :=
    List.pairwise_map.mpr hpairlt
  have hsortedIds : ids.Pairwise (fun x y => ids.indexOf x < ids.indexOf y) :=
    pairwise_indexOf_lt ids hnd
  haveI : IsAntisymm Nat (fun x y => ids.indexOf x < ids.indexOf y) :=
    ⟨fun a b h1 h2 => absurd (h1.trans h2) (Nat.lt_irrefl _)⟩
  exact List.eq_of_perm_of_sorted hpermids hsortedA hsortedIds

/-- Witness for C7: reordering the two concrete albums as [2, 1] makes
the custom-mode listing return them as [2, 1]. -/
theorem c7_reorder_roundtrip_witness :
    (Album.findAll (AlbumService.reorderAlbums twoAlbums [2, 1]).1).map
      Album.id = [2, 1] :=
  (c7_reorder_roundtrip twoAlbums [2, 1] (by decide) (by decide)
    (by decide) (by decide)).2

/-- C10: a reorder list containing ids that match no album still
resolves: every listed id with a matching album gets that album's
position set to the id's index, unknown ids are skipped silently — no
error is raised and the known ids' updates are not rolled back — and the
other stores are untouched. -/
theorem c10_reorder_unknown_ids (s : DBState) (ids : List Nat)
    (hnd : ids.Nodup) :
    (AlbumService.reorderAlbums s ids).2 = .ok () ∧
    (AlbumService.reorderAlbums s ids).1.albums = s.albums.map (fun a =>
      if a.id ∈ ids then
        { a with custom_order := some (ids.indexOf a.id), updated_at := s.now }
      else a) ∧
    (∀ a ∈ s.albums, a.id ∉ ids →
      a ∈ (AlbumService.reorderAlbums s ids).1.albums) ∧
    (AlbumService.reorderAlbums s ids).1.photos = s.photos ∧
    (AlbumService.reorderAlbums s ids).1.blobs = s.blobs :=
  reorderAlbums_spec s ids hnd

/-- Witness for C10: reordering with the unknown id 99 in front still
resolves, and albums 2 and 1 get positions 1 and 2. -/
theorem c10_reorder_unknown_ids_witness :
    (AlbumService.reorderAlbums twoAlbums [99, 2, 1]).2 = .ok () ∧
    ((AlbumService.reorderAlbums twoAlbums [99, 2, 1]).1.albums.map
      Album.custom_order) = [some 2, some 1] := by
  refine ⟨(c10_reorder_unknown_ids twoAlbums [99, 2, 1] (by decide)).1, ?_⟩
  rw [(c10_reorder_unknown_ids twoAlbums [99, 2, 1] (by decide)).2.1]
  rfl

namespace UploadService

/-- Total number of classified outcomes across the three buckets. -/
def bucketsLen (r : Results) : Nat :=
  r.successful.length + r.failed.length + r.duplicates.length

/-- Every task lands in exactly one bucket: a completion grows the bucket
total by one, whatever the outcome. -/
theorem executeUpload_len (r : Results) (t : TaskR) :
    bucketsLen (executeUpload r t) = bucketsLen r + 1 := by
  rcases ho : t.outcome with e | u
  · by_cases hi : includes e "Duplicate photo" = true
    · simp only [executeUpload, bucketsLen, ho, hi, ite_true, ite_false,
        List.length_append, List.length_cons, List.length_nil]
      omega
    · simp only [executeUpload, bucketsLen, ho, hi, ite_true, ite_false,
        Bool.false_eq_true, List.length_append, List.length_cons,
        List.length_nil]
      omega
  · simp only [executeUpload, bucketsLen, ho, List.length_append,
      List.length_cons, List.length_nil]
    omega

/-- The refill loop conserves tasks: it moves some prefix of the queue to
the end of the active window. -/
theorem refill_spec (maxC : Nat) :
    ∀ (q a : List TaskR),
      (refill maxC q a).1.length + (refill maxC q a).2.length =
        q.length + a.length ∧
      ∃ t, (refill maxC q a).2 = a ++ t ∧ q = t ++ (refill maxC q a).1 := by
  intro q
  induction q with
  | nil =>
    intro a
    exact ⟨by simp [refill], ⟨[], by simp [refill]⟩⟩
  | cons x xs ih =>
    intro a
    by_cases hlt : a.length < maxC
    · have hbody : refill maxC (x :: xs) a = refill maxC xs (a ++ [x]) := by
        simp [refill, hlt]
      obtain ⟨hlen, tmove, h2, h1⟩ := ih (a ++ [x])
      rw [hbody]
      refine ⟨?_, ⟨x :: tmove, ?_, ?_⟩⟩
      · have hx : (a ++ [x]).length = a.length + 1 := by simp
        have hxx : (x :: xs).length = xs.length + 1 := rfl
        omega
      · rw [h2]
        simp
      · rw [List.cons_append, ← h1]
    · have hbody : refill maxC (x :: xs) a = (x :: xs, a) := by
        simp [refill, hlt]
      rw [hbody]
      exact ⟨rfl, ⟨[], by simp⟩⟩

/-- Starting within the window bound, the refill loop never exceeds
`maxConcurrent`, and it stops only having emptied the queue or filled the
window. -/
theorem refill_bound (maxC : Nat) :
    ∀ (q a : List TaskR), a.length ≤ maxC →
      (refill maxC q a).2.length ≤ maxC ∧
      ((refill maxC q a).1.length = 0 ∨ (refill maxC q a).2.length = maxC) := by
  intro q
  induction q with
  | nil =>
    intro a ha
    exact ⟨by simpa [refill] using ha, Or.inl (by simp [refill])⟩
  | cons x xs ih =>
    intro a ha
    by_cases hlt : a.length < maxC
    · have hbody : refill maxC (x :: xs) a = refill maxC xs (a ++ [x]) := by
        simp [refill, hlt]
      rw [hbody]
      have hx : (a ++ [x]).length = a.length + 1 := by simp
      exact ih (a ++ [x]) (by omega)
    · have hbody : refill maxC (x :: xs) a = (x :: xs, a) := by
        simp [refill, hlt]
      rw [hbody]
      refine ⟨ha, Or.inr ?_⟩
      show a.length = maxC
      omega

/-- With a positive window and work remaining, the refill loop leaves at
least one task in flight. -/
theorem refill_ne_nil (maxC : Nat) (hm : 0 < maxC) :
    ∀ (q a : List TaskR), ¬(q.isEmpty && a.isEmpty) = true →
      (refill maxC q a).2 ≠ [] := by
  intro q
  induction q with
  | nil =>
    intro a hne
    simp [refill]
    intro hanil
    rw [hanil] at hne
    simp at hne
  | cons x xs ih =>
    intro a _
    by_cases hlt : a.length < maxC
    · have hbody : refill maxC (x :: xs) a = refill maxC xs (a ++ [x]) := by
        simp [refill, hlt]
      rw [hbody]
      apply ih
      simp
    · have hbody : refill maxC (x :: xs) a = (x :: xs, a) := by
        simp [refill, hlt]
      rw [hbody]
      intro hanil
      have hanil2 : a = [] := hanil
      rw [hanil2] at hlt
      simp only [List.length_nil] at hlt
      omega

/-- Removing the i-th element and putting it in front is a permutation. -/
theorem getD_cons_eraseIdx (d : TaskR) :
    ∀ (l : List TaskR) (i : Nat), i < l.length →
      (l.getD i d :: l.eraseIdx i).Perm l := by
  intro l
  induction l with
  | nil => intro i hi; simp at hi
  | cons x xs ih =>
    intro i hi
    cases i with
    | zero => simp [List.getD]
    | succ j =>
      have hj : j < xs.length := by simpa using hi
      have hperm := ih j hj
      have e1 : ((x :: xs).getD (j + 1) d :: (x :: xs).eraseIdx (j + 1))
          = (xs.getD j d :: x :: xs.eraseIdx j) := by simp [List.getD]
      rw [e1]
      exact (List.Perm.swap x (xs.getD j d) (xs.eraseIdx j)).trans (hperm.cons x)


/-- Invariant of the scheduler loop: from any well-formed intermediate
state the loop drains both lists, completes every task, reports one
numbered progress event per completion (current = position, total fixed),
files every outcome in exactly one bucket, and at every `Promise.race`
the recorded (in-flight, queued) pair respects the window bound with the
window full or the queue empty. -/
theorem runQueue_master (maxC total : Nat) (hm : 0 < maxC) :
    ∀ (fuel : Nat) (oracle : List Nat) (st : QS),
      st.queue.length + st.active.length ≤ fuel →
      st.completed + st.queue.length + st.active.length = total →
      st.progress.length = st.completed →
      bucketsLen st.results = st.completed →
      st.active.length ≤ maxC →
      (∀ j (hj : j < st.progress.length),
        (st.progress.get ⟨j, hj⟩).1 = j + 1 ∧
        (st.progress.get ⟨j, hj⟩).2.1 = total) →
      (∀ pr ∈ st.races, pr.1 ≤ maxC ∧ (pr.1 = maxC ∨ pr.2 = 0)) →
      (runQueue maxC total oracle fuel st).completed = total ∧
      (runQueue maxC total oracle fuel st).progress.length = total ∧
      bucketsLen (runQueue maxC total oracle fuel st).results = total ∧
      ((runQueue maxC total oracle fuel st).progress.map (fun e => e.2.2)).Perm
        (st.progress.map (fun e => e.2.2) ++
          (st.queue ++ st.active).map mkItemRes) ∧
      (∀ j (hj : j < (runQueue maxC total oracle fuel st).progress.length),
        ((runQueue maxC total oracle fuel st).progress.get ⟨j, hj⟩).1 = j + 1 ∧
        ((runQueue maxC total oracle fuel st).progress.get ⟨j, hj⟩).2.1 = total) ∧
      (∀ pr ∈ (runQueue maxC total oracle fuel st).races,
        pr.1 ≤ maxC ∧ (pr.1 = maxC ∨ pr.2 = 0)) := by
  intro fuel
  induction fuel with
  | zero =>
    intro oracle st hfuel hc hp hb ha hnum hr
    have hql : st.queue.length = 0 := by omega
    have hal : st.active.length = 0 := by omega
    have hq0 : st.queue = [] := List.length_eq_zero.mp hql
    have ha0 : st.active = [] := List.length_eq_zero.mp hal
    have hrun : runQueue maxC total oracle 0 st = st := rfl
    rw [hrun]
    refine ⟨by omega, by omega, by omega, ?_, hnum, hr⟩
    rw [hq0, ha0]
    simp
  | succ fuel ih =>
    intro oracle st hfuel hc hp hb ha hnum hr
    by_cases hstop : (st.queue.isEmpty && st.active.isEmpty) = true
    · have hq0 : st.queue = [] := by
        rcases Bool.and_eq_true_iff.mp hstop with ⟨h1, _⟩
        exact List.isEmpty_iff.mp h1
      have ha0 : st.active = [] := by
        rcases Bool.and_eq_true_iff.mp hstop with ⟨_, h2⟩
        exact List.isEmpty_iff.mp h2
      have hql : st.queue.length = 0 := by rw [hq0]; rfl
      have hal : st.active.length = 0 := by rw [ha0]; rfl
      have hrun : runQueue maxC total oracle (fuel + 1) st = st := by
        rw [runQueue, if_pos hstop]
      rw [hrun]
      refine ⟨by omega, by omega, by omega, ?_, hnum, hr⟩
      rw [hq0, ha0]
      simp
    · have hne : (refill maxC st.queue st.active).2 ≠ [] :=
        refill_ne_nil maxC hm st.queue st.active hstop
      obtain ⟨hrlen, tmove, hmv2, hmv1⟩ := refill_spec maxC st.queue st.active
      obtain ⟨hble, hbor⟩ := refill_bound maxC st.queue st.active ha
      have hlenpos : 0 < (refill maxC st.queue st.active).2.length :=
        List.length_pos.mpr hne
      have hlen0 : ¬((refill maxC st.queue st.active).2.length = 0) := by omega
      have hilt : (oracle.headD 0) % (refill maxC st.queue st.active).2.length <
          (refill maxC st.queue st.active).2.length := Nat.mod_lt _ hlenpos
      set p1 := (refill maxC st.queue st.active).1 with hp1def
      set p2 := (refill maxC st.queue st.active).2 with hp2def
      set i := (oracle.headD 0) % p2.length with hidef
      set t := p2.getD i default with htdef
      set st2 : QS :=
        { queue := p1,
          active := p2.eraseIdx i,
          completed := st.completed + 1,
          results := executeUpload st.results t,
          progress := st.progress ++ [(st.completed + 1, total, mkItemRes t)],
          races := st.races ++ [(p2.length, p1.length)] } with hst2
      have hrun : runQueue maxC total oracle (fuel + 1) st =
          runQueue maxC total oracle.tail fuel st2 := by
        rw [runQueue, if_neg hstop]
        simp only [hst2, hp1def, hp2def, hidef, htdef]
        rw [if_neg hlen0]
      have herase : (p2.eraseIdx i).length = p2.length - 1 :=
        List.length_eraseIdx_of_lt hilt
      have hq2l : st2.queue.length = p1.length := rfl
      have ha2l : st2.active.length = (p2.eraseIdx i).length := rfl
      have hnum2 : ∀ j (hj : j < st2.progress.length),
          (st2.progress.get ⟨j, hj⟩).1 = j + 1 ∧
          (st2.progress.get ⟨j, hj⟩).2.1 = total := by
        intro j hj
        have hjlen : j < st.progress.length + 1 := by
          simpa [hst2] using hj
        by_cases hjlt : j < st.progress.length
        · have hget : st2.progress.get ⟨j, hj⟩ = st.progress.get ⟨j, hjlt⟩ := by
            show (st.progress ++ [(st.completed + 1, total, mkItemRes t)]).get _
              = st.progress.get ⟨j, hjlt⟩
            rw [List.get_eq_getElem, List.get_eq_getElem]
            exact List.getElem_append_left hjlt
          rw [hget]
          exact hnum j hjlt
        · have hje : j = st.progress.length := by omega
          have hget : st2.progress.get ⟨j, hj⟩ =
              (st.completed + 1, total, mkItemRes t) := by
            show (st.progress ++ [(st.completed + 1, total, mkItemRes t)]).get _
              = (st.completed + 1, total, mkItemRes t)
            rw [List.get_eq_getElem]
            exact List.getElem_concat_length _ _ _ hje _
          rw [hget]
          exact ⟨by simp; omega, rfl⟩
      have hr2 : ∀ pr ∈ st2.races, pr.1 ≤ maxC ∧ (pr.1 = maxC ∨ pr.2 = 0) := by
        intro pr hpr
        have hpr2 : pr ∈ st.races ++ [(p2.length, p1.length)] := hpr
        rcases List.mem_append.mp hpr2 with hold | hnew
        · exact hr pr hold
        · have hpr3 : pr = (p2.length, p1.length) := by simpa using hnew
          rw [hpr3]
          refine ⟨hble, ?_⟩
          rcases hbor with h0 | hmax
          · exact Or.inr h0
          · exact Or.inl hmax
      obtain ⟨ihc, ihl, ihb, ihperm, ihnum, ihr⟩ :=
        ih oracle.tail st2
          (by rw [hq2l, ha2l, herase]; omega)
          (by show st.completed + 1 + p1.length + (p2.eraseIdx i).length = total
              rw [herase]; omega)
          (by show (st.progress ++ [(st.completed + 1, total, mkItemRes t)]).length
                = st.completed + 1
              simp; omega)
          (by show bucketsLen (executeUpload st.results t) = st.completed + 1
              rw [executeUpload_len]; omega)
          (by rw [ha2l, herase]; omega)
          hnum2 hr2
      rw [hrun]
      refine ⟨ihc, ihl, ihb, ?_, ihnum, ihr⟩
      refine ihperm.trans ?_
      have hqa : (st.queue ++ st.active).Perm (p1 ++ p2) := by
        rw [hmv1, hmv2, List.append_assoc]
        refine (List.perm_append_comm).trans ?_
        rw [List.append_assoc]
      have hsplit : p2.Perm (t :: p2.eraseIdx i) :=
        (getD_cons_eraseIdx default p2 i hilt).symm
      have e1 : st2.progress.map (fun e => e.2.2) =
          st.progress.map (fun e => e.2.2) ++ [mkItemRes t] := by
        simp [hst2]
      have e2 : (st2.queue ++ st2.active).map mkItemRes =
          p1.map mkItemRes ++ (p2.eraseIdx i).map mkItemRes := by
        show (p1 ++ p2.eraseIdx i).map mkItemRes = _
        rw [List.map_append]
      rw [e1, e2]
      have hkey : ((st.progress.map (fun e => e.2.2) ++ [mkItemRes t]) ++
          (p1.map mkItemRes ++ (p2.eraseIdx i).map mkItemRes)) =
          st.progress.map (fun e => e.2.2) ++
            (mkItemRes t :: (p1.map mkItemRes ++ (p2.eraseIdx i).map mkItemRes)) := by
        simp
      rw [hkey]
      apply List.Perm.append_left
      have h4 : (p2.map mkItemRes).Perm
          (mkItemRes t :: (p2.eraseIdx i).map mkItemRes) := hsplit.map mkItemRes
      have h5 : (mkItemRes t :: (p1.map mkItemRes ++
          (p2.eraseIdx i).map mkItemRes)).Perm
          (p1.map mkItemRes ++ (mkItemRes t :: (p2.eraseIdx i).map mkItemRes)) :=
        (List.perm_middle).symm
      refine h5.trans ?_
      have h6 : (p1.map mkItemRes ++
          (mkItemRes t :: (p2.eraseIdx i).map mkItemRes)).Perm
          (p1.map mkItemRes ++ p2.map mkItemRes) :=
        List.Perm.append_left _ h4.symm
      refine h6.trans ?_
      have h7 : (p1.map mkItemRes ++ p2.map mkItemRes) =
          (p1 ++ p2).map mkItemRes := (List.map_append _ _ _).symm
      rw [h7]
      exact (hqa.map mkItemRes).symm

/-- C5: over any task list and any completion order (oracle), the
scheduler fires the progress callback exactly once per item, the j-th
invocation carrying current = j+1 and total = n; the reported outcomes
are exactly the items' outcomes (one per item — an item's failure never
cancels or blocks the others, every item is classified into exactly one
bucket), and when the list is nonempty the final callback reports
current = total = n. -/
theorem c5_upload_progress (tasks : List TaskR) (oracle : List Nat) :
    (processQueue tasks oracle).progress.length = tasks.length ∧
    (∀ j (hj : j < (processQueue tasks oracle).progress.length),
      ((processQueue tasks oracle).progress.get ⟨j, hj⟩).1 = j + 1 ∧
      ((processQueue tasks oracle).progress.get ⟨j, hj⟩).2.1 = tasks.length) ∧
    ((processQueue tasks oracle).progress.map (fun e => e.2.2)).Perm
      (tasks.map mkItemRes) ∧
    bucketsLen (processQueue tasks oracle).results = tasks.length ∧
    (tasks ≠ [] →
      ∃ e, (processQueue tasks oracle).progress.getLast? = some e ∧
        e.1 = tasks.length ∧ e.2.1 = tasks.length) := by
  unfold processQueue
  set R := runQueue 3 tasks.length oracle tasks.length
    { queue := tasks, active := [], completed := 0,
      results := { successful := [], failed := [], duplicates := [] },
      progress := [], races := [] } with hRdef
  obtain ⟨hcmp, hlen, hbuck, hperm, hnum, hraces⟩ :=
    runQueue_master 3 tasks.length (by omega) tasks.length oracle
      { queue := tasks, active := [], completed := 0,
        results := { successful := [], failed := [], duplicates := [] },
        progress := [], races := [] }
      (by simp) (by simp) rfl rfl (by simp)
      (by intro j hj; simp at hj)
      (by intro pr hpr; simp at hpr)
  rw [← hRdef] at hcmp hlen hbuck hperm hnum hraces
  have hperm2 : (R.progress.map (fun e => e.2.2)).Perm (tasks.map mkItemRes) := by
    refine hperm.trans ?_
    simp
  refine ⟨hlen, hnum, hperm2, hbuck, ?_⟩
  intro hne
  have hn : 0 < tasks.length := List.length_pos.mpr hne
  have hlt : R.progress.length - 1 < R.progress.length := by omega
  refine ⟨R.progress.get ⟨R.progress.length - 1, hlt⟩, ?_, ?_, ?_⟩
  · rw [List.getLast?_eq_getElem?, List.getElem?_eq_getElem hlt,
      List.get_eq_getElem]
  · have hfirst := (hnum (R.progress.length - 1) hlt).1
    rw [hfirst]
    omega
  · exact (hnum (R.progress.length - 1) hlt).2

/-- C9: in every run of the upload scheduler, at each point where the
loop waits for a completion the number of in-flight pipelines is at most
3, and it is either exactly 3 or the queue is empty — the sliding-window
property: the scheduler never waits while a slot is free and files
remain queued, so a freed slot is refilled immediately. -/
theorem c9_bounded_concurrency (tasks : List TaskR) (oracle : List Nat) :
    ∀ pr ∈ (processQueue tasks oracle).races,
      pr.1 ≤ 3 ∧ (pr.1 = 3 ∨ pr.2 = 0) := by
  unfold processQueue
  obtain ⟨_, _, _, _, _, hraces⟩ :=
    runQueue_master 3 tasks.length (by omega) tasks.length oracle
      { queue := tasks, active := [], completed := 0,
        results := { successful := [], failed := [], duplicates := [] },
        progress := [], races := [] }
      (by simp) (by simp) rfl rfl (by simp)
      (by intro j hj; simp at hj)
      (by intro pr hpr; simp at hpr)
  exact hraces

/-- Witness for C5: on the concrete five-task batch the final progress
event reports current = total = 5. -/
theorem c5_upload_progress_witness :
    ∃ e, (processQueue batch5 [1, 0, 2, 0, 0]).progress.getLast? = some e ∧
      e.1 = batch5.length ∧ e.2.1 = batch5.length :=
  (c5_upload_progress batch5 [1, 0, 2, 0, 0]).2.2.2.2 (by decide)

/-- Witness for C9: the first recorded race of the concrete batch run,
(3 in flight, 2 queued), respects the bound with a full window. -/
theorem c9_bounded_concurrency_witness :
    (3, 2).1 ≤ 3 ∧ ((3, 2).1 = 3 ∨ (3, 2).2 = 0) :=
  c9_bounded_concurrency batch5 [1, 0, 2, 0, 0] (3, 2) (by decide)

end UploadService

/-- C8 (amended): `albumService.create` rejects (without mutating state)
names empty after trimming, dates failing the `YYYY-MM-DD` regex, and
well-formed-looking dates that denote no real calendar date; given a
non-empty trimmed name, a valid date and fewer than 100 albums it
creates the album — even when the name exceeds 100 characters or the
date is in the future; and with 100 or more albums already present it
enforces the cap, rejecting the creation without mutating state.  The
over-long-name and future-date rules live only in the form-level
`validateAlbumForm`, which flags over-long trimmed names and well-formed
future dates as invalid. -/
theorem c8_create_validation_amended (s : DBState) (name date : String)
    (today : Nat × Nat × Nat) :
    ((jsTrim name).length = 0 →
      (AlbumService.create s name date).2 =
        .error "Album name is required and must be a non-empty string" ∧
      (AlbumService.create s name date).1 = s) ∧
    ((jsTrim name).length ≠ 0 → matchesDateRegex date = false →
      (AlbumService.create s name date).2 =
        .error "Album date must be in YYYY-MM-DD format" ∧
      (AlbumService.create s name date).1 = s) ∧
    ((jsTrim name).length ≠ 0 → matchesDateRegex date = true →
      jsDateValid date = false →
      (AlbumService.create s name date).2 = .error "Invalid date provided" ∧
      (AlbumService.create s name date).1 = s) ∧
    ((jsTrim name).length ≠ 0 → jsDateValid date = true →
      s.albums.length < 100 →
      (AlbumService.create s name date).2.isOk = true) ∧
    ((jsTrim name).length ≠ 0 → jsDateValid date = true →
      100 ≤ s.albums.length →
      (AlbumService.create s name date).2 =
        .error "Maximum album limit (100) reached" ∧
      (AlbumService.create s name date).1 = s) ∧
    (100 < (jsTrim name).length →
      (validateAlbumForm name date today).valid = false) ∧
    ((jsTrim date).length ≠ 0 → jsDateValid date = true →
      isFutureDate date today = true →
      (validateAlbumForm name date today).valid = false) := by
  refine ⟨?_, ?_, ?_, ?_, ?_, ?_, ?_⟩
  · intro h0
    constructor <;> simp [AlbumService.create, h0]
  · intro h0 h1
    constructor <;> simp [AlbumService.create, h0, h1]
  · intro h0 h1 h2
    constructor <;> simp [AlbumService.create, h0, h1, h2]
  · intro h0 h1 h2
    have hregex : matchesDateRegex date = true := by
      unfold jsDateValid at h1
      exact (Bool.and_eq_true_iff.mp h1).1
    have hcap : ¬ (100 ≤ s.albums.length) := by omega
    simp [AlbumService.create, Album.create, h0, h1, h2, hregex, hcap,
      Except.isOk, Except.toBool]
  · intro h0 h1 h2
    have hregex : matchesDateRegex date = true := by
      unfold jsDateValid at h1
      exact (Bool.and_eq_true_iff.mp h1).1
    constructor <;> simp [AlbumService.create, h0, h1, h2, hregex]
  · intro h0
    have h1 : ((jsTrim name).length == 0) = false := by
      simp
      omega
    have h2 : ¬ ((jsTrim name).length < 1) := by omega
    simp [validateAlbumForm, h1, h2, h0]
  · intro h0 h1 h2
    have h3 : ((jsTrim date).length == 0) = false := by
      simp
      omega
    simp [validateAlbumForm, h3, h1, h2]

/-- Witness for C8 (amended): concrete valid inputs create an album when
99 or fewer albums exist, and the same valid inputs are rejected by the
cap when 100 albums exist. -/
theorem c8_create_validation_amended_witness :
    (AlbumService.create emptyDB "Trip" "2024-01-01").2.isOk = true ∧
    (AlbumService.create albums100 "Trip" "2024-01-01").2 =
      .error "Maximum album limit (100) reached" :=
  ⟨(c8_create_validation_amended emptyDB "Trip" "2024-01-01"
      (2026, 10, 11)).2.2.2.1 (by decide) (by decide) (by decide),
   ((c8_create_validation_amended albums100 "Trip" "2024-01-01"
      (2026, 10, 11)).2.2.2.2.1 (by decide) (by decide) (by decide)).1⟩

end PhotoAlbum

